import Mathlib

/-!
Verification of the `mlcommons_box` schema-object framework
(`mlcommons_box/runner/objects/base.py`).

The framework is a small dynamically-typed Python library: field descriptors
(`PrimitiveField`, `ObjectField`), schema objects (`StandardObject`) and the
two collection variants (`ListOfObject`, `DictOfObject`), with the operations
`validate`, `default`, `from_primitive` and `merge`.

The embedding below is a value-level interpreter of that code:

* `PyVal` is the universe of Python values the framework manipulates
  (None, scalars, lists, dicts, and schema-object instances);
* a schema-object class is a `ClassDef` (one of the three base kinds,
  an optional superclass, and its declarative data: the field table for
  `StandardObject` subclasses, `item_class` / `value_class` for the
  collections); a program's classes form a table `List ClassDef`, and an
  instance `PyVal.obj c attrs` carries its class index and its attribute
  dictionary (Python instance `__dict__`);
* dynamic method dispatch (`self.default()`, `self.from_primitive(...)`,
  `self.merge(...)`) becomes dispatch on the class kind;
* the operations are translated statement by statement; Python exceptions
  (`ValueError` from validation, `TypeError`, `AttributeError`, `KeyError`)
  become `Except PyErr` results, and the recursion through class references
  is bounded by an explicit fuel parameter whose exhaustion is modelled as
  Python's `RecursionError`.

Instances are mutated in place in Python; here every operation returns the
post-state of the receiver.  Where an operation's Python return value is not
the receiver (notably `DictOfObject.from_primitive`, which has no `return`
statement), the function returns the pair (post-state of the receiver,
Python return value).  The model is heap-free: distinct values never alias.
-/

namespace MLBox

/-- Python exceptions raised by the framework.  `recursionError` stands for
exceeding the interpreter recursion limit (fuel exhaustion in this model). -/
inductive PyErr where
  | valueError
  | typeError
  | keyError
  | attributeError
  | recursionError
deriving DecidableEq, Repr

/-- Python values handled by the framework: `None`, scalars, lists, dicts
(insertion-ordered association lists with unique string keys, as the
framework only ever uses string keys), and schema-object instances
(`obj cls attrs`: the class index into the class table together with the
instance attribute dictionary). -/
inductive PyVal where
  | none
  | int (n : Int)
  | str (s : String)
  | bool (b : Bool)
  | list (xs : List PyVal)
  | dict (entries : List (String × PyVal))
  | obj (cls : Nat) (attrs : List (String × PyVal))

/-- Identity test `x is None`. -/
def PyVal.isNone : PyVal → Bool
  | PyVal.none => true
  | _ => false

/-- Test whether a value is a schema-object instance, i.e. Python's
`isinstance(x, BaseObject)`: only `PyVal.obj` values are instances of a
`BaseObject` subclass. -/
def PyVal.isObj : PyVal → Bool
  | PyVal.obj _ _ => true
  | _ => false

/-- Dict lookup `d.get(k)` on an association list: first (unique) match. -/
def dictGet (entries : List (String × PyVal)) (k : String) : Option PyVal :=
  match entries with
  | [] => Option.none
  | (k1, v) :: rest => if k1 = k then Option.some v else dictGet rest k

/-- Dict store `d[k] = v`: replace in place if the key is present (keeping
insertion order), else append.  Instance attribute assignment `setattr` is
the same operation on the instance dictionary. -/
def dictSet (entries : List (String × PyVal)) (k : String) (v : PyVal) :
    List (String × PyVal) :=
  match entries with
  | [] => [(k, v)]
  | (k1, v1) :: rest => if k1 = k then (k, v) :: rest else (k1, v1) :: dictSet rest k v

/-- Subscript `v[k]` with a string key: a dict lookup that raises `KeyError`
on a missing key; on any non-dict value (int, list, ...) a string subscript
raises `TypeError`. -/
def pySubscript (v : PyVal) (k : String) : Except PyErr PyVal :=
  match v with
  | PyVal.dict entries =>
    match dictGet entries k with
    | Option.some x => Except.ok x
    | Option.none => Except.error PyErr.keyError
  | _ => Except.error PyErr.typeError

/-- Python truthiness `bool(x)` as used by the `base or []` / `base or {}`
idioms inside `StandardObject.merge`.  Those helpers are only reached when
the field value is not a `BaseObject` instance (the `isinstance` branch of
the merge loop precedes them), so the `obj` case never matters there; it is
set to `true` (instances of classes without `__len__`). -/
def pyTruthy : PyVal → Bool
  | PyVal.none => false
  | PyVal.int n => decide (n ≠ 0)
  | PyVal.str s => decide (s ≠ "")
  | PyVal.bool b => b
  | PyVal.list xs => !xs.isEmpty
  | PyVal.dict entries => !entries.isEmpty
  | PyVal.obj _ _ => true

/-- Field descriptors (base.py lines 19-48): `ObjectField` stores the
referenced class and the embedded flag, `PrimitiveField` stores its declared
default value. -/
inductive FieldDesc where
  | primitiveField (default_value : PyVal)
  | objectField (object_class : Nat) (embedded : Bool)

/-- The test `isinstance(fld, ObjectField) and fld.embedded is True` used
by `StandardObject.default` and `StandardObject.from_primitive`. -/
def FieldDesc.isEmbedded : FieldDesc → Bool
  | FieldDesc.objectField _ true => true
  | _ => false

/-- A schema-object class: one of the three concrete base kinds together
with its optional superclass (for `isinstance`) and its declarative data.
For a `StandardObject` subclass the entry carries the effective (inherited
or overridden) `fields` table; for the collections it carries the effective
`item_class` / `value_class`. -/
inductive ClassDef where
  | standard (parent : Option Nat) (fields : List (String × FieldDesc))
  | listOf (parent : Option Nat) (item_class : Nat)
  | dictOf (parent : Option Nat) (value_class : Nat)

/-- Superclass link of a class definition. -/
def ClassDef.parent : ClassDef → Option Nat
  | ClassDef.standard p _ => p
  | ClassDef.listOf p _ => p
  | ClassDef.dictOf p _ => p

/-- Declared field table of a class (`cls.fields`); the collection kinds
declare none. -/
def classFields (ct : List ClassDef) (cls : Nat) : List (String × FieldDesc) :=
  match ct[cls]? with
  | Option.some (ClassDef.standard _ flds) => flds
  | _ => []

/-- Walk the superclass chain: `isSubclass ct fuel c target` holds when
`target` is reached from `c` through `parent` links (within `fuel` steps;
`ct.length + 1` suffices for any acyclic table). -/
def isSubclass (ct : List ClassDef) : Nat → Nat → Nat → Bool
  | 0, _, _ => false
  | fuel+1, c, target =>
    c == target ||
      match ct[c]? with
      | Option.some cd =>
        match cd.parent with
        | Option.some p => isSubclass ct fuel p target
        | Option.none => false
      | Option.none => false

/-- Python `isinstance(v, cls)` for a schema-object class `cls`: true iff
`v` is an instance whose class is `cls` or a subclass of it. -/
def pyIsinstance (ct : List ClassDef) (v : PyVal) (cls : Nat) : Bool :=
  match v with
  | PyVal.obj c _ => isSubclass ct (ct.length + 1) c cls
  | _ => false

/-- Instance construction `cls()`: `ListOfObject.__init__` sets
`self._data = []`, `DictOfObject.__init__` sets `self._data = {}`, and a
`StandardObject` subclass defines no `__init__`, so its fresh instance has
an empty attribute dictionary. -/
def newInstance (ct : List ClassDef) (cls : Nat) : PyVal :=
  match ct[cls]? with
  | Option.some (ClassDef.listOf _ _) => PyVal.obj cls [("_data", PyVal.list [])]
  | Option.some (ClassDef.dictOf _ _) => PyVal.obj cls [("_data", PyVal.dict [])]
  | _ => PyVal.obj cls []

/-- `StandardObject.validate` (base.py 76-81): the input must be a dict. -/
def StandardObject.validate (prim : PyVal) : Bool :=
  match prim with
  | PyVal.dict _ => true
  | _ => false

/-- `ListOfObject.validate` (base.py 168-173): the input must be a list. -/
def ListOfObject.validate (prim : PyVal) : Bool :=
  match prim with
  | PyVal.list _ => true
  | _ => false

/-- `DictOfObject.validate` (base.py 213-218): the input must be a dict. -/
def DictOfObject.validate (prim : PyVal) : Bool :=
  match prim with
  | PyVal.dict _ => true
  | _ => false

/-- Dynamic dispatch of `cls.validate(primitive)` on the class kind. -/
def BaseObject.validate (ct : List ClassDef) (cls : Nat) (prim : PyVal) : Bool :=
  match ct[cls]? with
  | Option.some (ClassDef.standard _ _) => StandardObject.validate prim
  | Option.some (ClassDef.listOf _ _) => ListOfObject.validate prim
  | Option.some (ClassDef.dictOf _ _) => DictOfObject.validate prim
  | Option.none => false

/-- The local helper `_merge_list(base, overlay)` of `StandardObject.merge`
(base.py 122-125): `result = base or []` (Python truthiness), then
`result.extend(overlay)`.  The call site guarantees `overlay` is a list
(`isinstance(overlay_attr, list)`), so it is taken here as a Lean list.
When the truthy `result` is not a list it has no `extend` method and the
call raises `AttributeError`. -/
def StandardObject.mergeList (base : PyVal) (overlay : List PyVal) : Except PyErr PyVal :=
  let result := if pyTruthy base then base else PyVal.list []
  match result with
  | PyVal.list xs => Except.ok (PyVal.list (xs ++ overlay))
  | _ => Except.error PyErr.attributeError

mutual

/-- The local helper `_merge_dict(base, overlay)` of `StandardObject.merge`
(base.py 126-134): `result = base or \x7b\x7d`, then the key loop.  Both the
outer call site and the recursive call guard the overlay with
`isinstance(-, dict)`; a non-dict overlay would fail on `overlay.items()`
with `AttributeError`. -/
def StandardObject.mergeDict : Nat → PyVal → PyVal → Except PyErr PyVal
  | 0, _, _ => Except.error PyErr.recursionError
  | fuel+1, base, overlay =>
    match overlay with
    | PyVal.dict items =>
      let result := if pyTruthy base then base else PyVal.dict []
      StandardObject.mergeDictLoop fuel result items
    | _ => Except.error PyErr.attributeError

/-- The `for key, val in overlay.items()` loop of `_merge_dict`
(base.py 128-133), translated statement by statement:

* `val` a dict: `node = result.setdefault(key, \x7b\x7d)` inserts an empty dict
  at `key` when absent and binds the entry now present at `key`; then the
  source computes `result[key] = _merge_dict(node[key], val)` — note the
  second subscript `node[key]`, indexing the just-fetched entry by the same
  key again (`KeyError` when `node` is a dict without that key, `TypeError`
  when `node` is not subscriptable by a string).  `setdefault` on a
  non-dict `result` raises `AttributeError`.
* otherwise: `result[key] = val` (item assignment on a non-dict raises
  `TypeError`). -/
def StandardObject.mergeDictLoop : Nat → PyVal → List (String × PyVal) → Except PyErr PyVal
  | 0, _, _ => Except.error PyErr.recursionError
  | _+1, result, [] => Except.ok result
  | fuel+1, result, (key, val) :: rest =>
    match val with
    | PyVal.dict _ =>
      match result with
      | PyVal.dict res =>
        let res1 := match dictGet res key with
          | Option.some _ => res
          | Option.none => dictSet res key (PyVal.dict [])
        let node := match dictGet res1 key with
          | Option.some v => v
          | Option.none => PyVal.dict []
        match pySubscript node key with
        | Except.ok nodeKey =>
          match StandardObject.mergeDict fuel nodeKey val with
          | Except.ok merged =>
            StandardObject.mergeDictLoop fuel (PyVal.dict (dictSet res1 key merged)) rest
          | Except.error e => Except.error e
        | Except.error e => Except.error e
      | _ => Except.error PyErr.attributeError
    | _ =>
      match result with
      | PyVal.dict res => StandardObject.mergeDictLoop fuel (PyVal.dict (dictSet res key val)) rest
      | _ => Except.error PyErr.typeError

end

/-- The loop of `StandardObject._embed_object` (base.py 115-119): for each
field declared on the child's class whose name is not among the parent's
declared field names, `getattr(obj, subfld_name)` (raising `AttributeError`
when the child instance lacks the attribute) and `setattr` it onto the
parent. -/
def StandardObject.embedLoop (parentNames : List String)
    (childAttrs : List (String × PyVal)) :
    List (String × FieldDesc) → List (String × PyVal) → Except PyErr (List (String × PyVal))
  | [], attrs => Except.ok attrs
  | (subName, _) :: rest, attrs =>
    if subName ∈ parentNames then
      StandardObject.embedLoop parentNames childAttrs rest attrs
    else
      match dictGet childAttrs subName with
      | Option.some subAttr =>
        StandardObject.embedLoop parentNames childAttrs rest (dictSet attrs subName subAttr)
      | Option.none => Except.error PyErr.attributeError

/-- `StandardObject._embed_object(self, obj)` (base.py 110-119), acting on
the parent's attribute dictionary.  Reading `obj.fields` requires the child
to be a `StandardObject`-kind instance: a non-object child (for instance
`None`) and a collection instance (whose classes declare no `fields`
attribute) raise `AttributeError`.  The `fields is None` guard of the
source never fires for classes of this table shape, whose field table is
always present. -/
def StandardObject.embedObject (ct : List ClassDef) (parentCls : Nat)
    (attrs : List (String × PyVal)) (child : PyVal) :
    Except PyErr (List (String × PyVal)) :=
  match child with
  | PyVal.obj childCls childAttrs =>
    match ct[childCls]? with
    | Option.some (ClassDef.standard _ childFields) =>
      StandardObject.embedLoop ((classFields ct parentCls).map Prod.fst)
        childAttrs childFields attrs
    | _ => Except.error PyErr.attributeError
  | _ => Except.error PyErr.attributeError

mutual

/-- Dispatch of `fld.get_default_value()` (base.py 25-27, 40-41):
`PrimitiveField` returns its declared default, `ObjectField` constructs a
fresh instance of the referenced class and calls `default()` on it. -/
def BaseField.get_default_value (ct : List ClassDef) : Nat → FieldDesc → Except PyErr PyVal
  | 0, _ => Except.error PyErr.recursionError
  | _+1, FieldDesc.primitiveField d => Except.ok d
  | fuel+1, FieldDesc.objectField c _ =>
    BaseObject.default ct fuel (newInstance ct c)

/-- Dispatch of `fld.get_value_from_primitive(primitive)` (base.py 29-32,
43-48): for `PrimitiveField` the primitive when it is not `None`, else the
default; for `ObjectField` the Python return value of
`self.object_class().from_primitive(primitive)`. -/
def BaseField.get_value_from_primitive (ct : List ClassDef) :
    Nat → FieldDesc → PyVal → Except PyErr PyVal
  | 0, _, _ => Except.error PyErr.recursionError
  | _+1, FieldDesc.primitiveField d, prim =>
    Except.ok (if prim.isNone then d else prim)
  | fuel+1, FieldDesc.objectField c _, prim =>
    match BaseObject.from_primitive ct fuel (newInstance ct c) prim with
    | Except.ok pair => Except.ok pair.2
    | Except.error e => Except.error e

/-- Dynamic dispatch of `self.default()`.  `StandardObject.default`
(base.py 83-91) runs the field loop; `ListOfObject.default` (175-177) and
`DictOfObject.default` (220-222) reset `self._data`.  All three `return
self`, so the result is the mutated receiver. -/
def BaseObject.default (ct : List ClassDef) : Nat → PyVal → Except PyErr PyVal
  | 0, _ => Except.error PyErr.recursionError
  | fuel+1, PyVal.obj cls attrs =>
    match ct[cls]? with
    | Option.some (ClassDef.standard _ flds) =>
      match StandardObject.defaultLoop ct fuel cls flds attrs with
      | Except.ok a => Except.ok (PyVal.obj cls a)
      | Except.error e => Except.error e
    | Option.some (ClassDef.listOf _ _) =>
      Except.ok (PyVal.obj cls (dictSet attrs "_data" (PyVal.list [])))
    | Option.some (ClassDef.dictOf _ _) =>
      Except.ok (PyVal.obj cls (dictSet attrs "_data" (PyVal.dict [])))
    | Option.none => Except.error PyErr.typeError
  | _+1, _ => Except.error PyErr.typeError

/-- The field loop of `StandardObject.default` (base.py 86-90): for each
declared field, `attr = fld.get_default_value()`, `setattr`, and for an
embedded `ObjectField` additionally `self._embed_object(attr)`. -/
def StandardObject.defaultLoop (ct : List ClassDef) :
    Nat → Nat → List (String × FieldDesc) → List (String × PyVal) →
    Except PyErr (List (String × PyVal))
  | 0, _, _, _ => Except.error PyErr.recursionError
  | _+1, _, [], attrs => Except.ok attrs
  | fuel+1, cls, (fldName, fld) :: rest, attrs =>
    match BaseField.get_default_value ct fuel fld with
    | Except.ok attr =>
      let attrs1 := dictSet attrs fldName attr
      if fld.isEmbedded then
        match StandardObject.embedObject ct cls attrs1 attr with
        | Except.ok attrs2 => StandardObject.defaultLoop ct fuel cls rest attrs2
        | Except.error e => Except.error e
      else StandardObject.defaultLoop ct fuel cls rest attrs1
    | Except.error e => Except.error e

/-- Dynamic dispatch of `self.from_primitive(primitive)`, returning the
pair (mutated receiver, Python return value).

* `StandardObject.from_primitive` (base.py 93-108): `ValueError` unless the
  input is a dict, then the field loop; `return self`.
* `ListOfObject.from_primitive` (179-187): `ValueError` unless the input is
  a list, then appends the conversion of every non-`None` item to the
  existing `self._data`; `return self`.
* `DictOfObject.from_primitive` (224-231): `ValueError` unless the input is
  a dict, then stores the conversion of every non-`None` value under its
  key; the method body has no `return` statement, so the Python return
  value is `None` while the receiver is still mutated. -/
def BaseObject.from_primitive (ct : List ClassDef) :
    Nat → PyVal → PyVal → Except PyErr (PyVal × PyVal)
  | 0, _, _ => Except.error PyErr.recursionError
  | fuel+1, PyVal.obj cls attrs, prim =>
    match ct[cls]? with
    | Option.some (ClassDef.standard _ flds) =>
      match prim with
      | PyVal.dict entries =>
        match StandardObject.fromPrimLoop ct fuel cls flds entries attrs with
        | Except.ok a => Except.ok (PyVal.obj cls a, PyVal.obj cls a)
        | Except.error e => Except.error e
      | _ => Except.error PyErr.valueError
    | Option.some (ClassDef.listOf _ itemCls) =>
      match prim with
      | PyVal.list items =>
        match dictGet attrs "_data" with
        | Option.some (PyVal.list xs) =>
          match ListOfObject.fromPrimLoop ct fuel itemCls items xs with
          | Except.ok d =>
            Except.ok
              (PyVal.obj cls (dictSet attrs "_data" (PyVal.list d)),
               PyVal.obj cls (dictSet attrs "_data" (PyVal.list d)))
          | Except.error e => Except.error e
        | _ => Except.error PyErr.attributeError
      | _ => Except.error PyErr.valueError
    | Option.some (ClassDef.dictOf _ valueCls) =>
      match prim with
      | PyVal.dict entries =>
        match dictGet attrs "_data" with
        | Option.some (PyVal.dict d) =>
          match DictOfObject.fromPrimLoop ct fuel valueCls entries d with
          | Except.ok d2 =>
            Except.ok
              (PyVal.obj cls (dictSet attrs "_data" (PyVal.dict d2)),
               PyVal.none)
          | Except.error e => Except.error e
        | _ => Except.error PyErr.attributeError
      | _ => Except.error PyErr.valueError
    | Option.none => Except.error PyErr.typeError
  | _+1, _, _ => Except.error PyErr.typeError

/-- The field loop of `StandardObject.from_primitive` (base.py 97-107).
An embedded `ObjectField` converts from the whole primitive and then embeds
the child; every other field first computes its default, then overrides it
with the conversion of `primitive.get(fld_name, None)` when that sub-value
is not `None`. -/
def StandardObject.fromPrimLoop (ct : List ClassDef) :
    Nat → Nat → List (String × FieldDesc) → List (String × PyVal) →
    List (String × PyVal) → Except PyErr (List (String × PyVal))
  | 0, _, _, _, _ => Except.error PyErr.recursionError
  | _+1, _, [], _, attrs => Except.ok attrs
  | fuel+1, cls, (fldName, fld) :: rest, entries, attrs =>
    if fld.isEmbedded then
      match BaseField.get_value_from_primitive ct fuel fld (PyVal.dict entries) with
      | Except.ok attr =>
        let attrs1 := dictSet attrs fldName attr
        match StandardObject.embedObject ct cls attrs1 attr with
        | Except.ok attrs2 => StandardObject.fromPrimLoop ct fuel cls rest entries attrs2
        | Except.error e => Except.error e
      | Except.error e => Except.error e
    else
      match BaseField.get_default_value ct fuel fld with
      | Except.ok dflt =>
        let primFld := match dictGet entries fldName with
          | Option.some v => v
          | Option.none => PyVal.none
        match (if primFld.isNone then Except.ok dflt
               else BaseField.get_value_from_primitive ct fuel fld primFld) with
        | Except.ok attr =>
          StandardObject.fromPrimLoop ct fuel cls rest entries (dictSet attrs fldName attr)
        | Except.error e => Except.error e
      | Except.error e => Except.error e

/-- The item loop of `ListOfObject.from_primitive` (base.py 183-186):
`None` items are skipped; each other item is converted through
`self.item_class().from_primitive(item)` and the Python return value of
that call is appended to `self._data`. -/
def ListOfObject.fromPrimLoop (ct : List ClassDef) :
    Nat → Nat → List PyVal → List PyVal → Except PyErr (List PyVal)
  | 0, _, _, _ => Except.error PyErr.recursionError
  | _+1, _, [], acc => Except.ok acc
  | fuel+1, itemCls, item :: rest, acc =>
    if item.isNone then ListOfObject.fromPrimLoop ct fuel itemCls rest acc
    else
      match BaseObject.from_primitive ct fuel (newInstance ct itemCls) item with
      | Except.ok (_, ret) => ListOfObject.fromPrimLoop ct fuel itemCls rest (acc ++ [ret])
      | Except.error e => Except.error e

/-- The entry loop of `DictOfObject.from_primitive` (base.py 228-231):
`None` values are skipped; each other value is converted through
`self.value_class().from_primitive(value)` and the Python return value of
that call is stored at the entry's key in `self._data`. -/
def DictOfObject.fromPrimLoop (ct : List ClassDef) :
    Nat → Nat → List (String × PyVal) → List (String × PyVal) →
    Except PyErr (List (String × PyVal))
  | 0, _, _, _ => Except.error PyErr.recursionError
  | _+1, _, [], acc => Except.ok acc
  | fuel+1, valueCls, (key, value) :: rest, acc =>
    if value.isNone then DictOfObject.fromPrimLoop ct fuel valueCls rest acc
    else
      match BaseObject.from_primitive ct fuel (newInstance ct valueCls) value with
      | Except.ok (_, ret) =>
        DictOfObject.fromPrimLoop ct fuel valueCls rest (dictSet acc key ret)
      | Except.error e => Except.error e

/-- Dynamic dispatch of `self.merge(overlay)`, returning the pair (mutated
receiver, overlay after the call); the source never assigns into the
overlay, so the second component is the unchanged argument.

* `StandardObject.merge` (base.py 121-149): `TypeError` unless
  `isinstance(overlay, self.__class__)`, then the field loop; `return self`.
* `ListOfObject.merge` (189-193): the same `isinstance` guard, then
  `self._data.extend(overlay)` — iteration over the overlay goes through
  its `__getitem__`/`__len__` sequence protocol and yields the elements of
  `overlay._data` in order; `return self`.
* `DictOfObject.merge` (233-239): the same `isinstance` guard, then
  `for key, value in overlay.items()` — but neither `DictOfObject` nor
  `BaseObject` defines any attribute or method named `items` (the class
  bodies define only `__init__`, `__repr__`, `__len__`, `__getitem__`,
  `validate`, `default`, `from_primitive` and `merge`, and the instance
  dictionary only ever holds `_data`), so the lookup `overlay.items`
  raises `AttributeError` before the loop body can run. -/
def BaseObject.merge (ct : List ClassDef) :
    Nat → PyVal → PyVal → Except PyErr (PyVal × PyVal)
  | 0, _, _ => Except.error PyErr.recursionError
  | fuel+1, PyVal.obj cls attrs, overlay =>
    match ct[cls]? with
    | Option.some (ClassDef.standard _ flds) =>
      if pyIsinstance ct overlay cls then
        match overlay with
        | PyVal.obj _ oattrs =>
          match StandardObject.mergeLoop ct fuel flds attrs oattrs with
          | Except.ok a => Except.ok (PyVal.obj cls a, overlay)
          | Except.error e => Except.error e
        | _ => Except.error PyErr.typeError
      else Except.error PyErr.typeError
    | Option.some (ClassDef.listOf _ _) =>
      if pyIsinstance ct overlay cls then
        match overlay with
        | PyVal.obj _ oattrs =>
          match dictGet attrs "_data", dictGet oattrs "_data" with
          | Option.some (PyVal.list xs), Option.some (PyVal.list ys) =>
            Except.ok (PyVal.obj cls (dictSet attrs "_data" (PyVal.list (xs ++ ys))), overlay)
          | _, _ => Except.error PyErr.attributeError
        | _ => Except.error PyErr.typeError
      else Except.error PyErr.typeError
    | Option.some (ClassDef.dictOf _ _) =>
      if pyIsinstance ct overlay cls then Except.error PyErr.attributeError
      else Except.error PyErr.typeError
    | Option.none => Except.error PyErr.typeError
  | _+1, _, _ => Except.error PyErr.typeError

/-- The field loop of `StandardObject.merge` (base.py 137-148): for each
declared field name, read `attr` from the receiver and `overlay_attr` from
the overlay (`AttributeError` when missing), then

* `attr` a `BaseObject` instance: `attr.merge(overlay_attr)` in place;
* else `overlay_attr` a list: `_merge_list`;
* else `overlay_attr` a dict: `_merge_dict`;
* else `overlay_attr` not `None`: it replaces `attr`;
* else: `attr` is kept;

and finally `setattr(self, attr_name, attr)`. -/
def StandardObject.mergeLoop (ct : List ClassDef) :
    Nat → List (String × FieldDesc) → List (String × PyVal) →
    List (String × PyVal) → Except PyErr (List (String × PyVal))
  | 0, _, _, _ => Except.error PyErr.recursionError
  | _+1, [], attrs, _ => Except.ok attrs
  | fuel+1, (fldName, _) :: rest, attrs, oattrs =>
    match dictGet attrs fldName with
    | Option.none => Except.error PyErr.attributeError
    | Option.some attr =>
      match dictGet oattrs fldName with
      | Option.none => Except.error PyErr.attributeError
      | Option.some oattr =>
        if attr.isObj then
          match BaseObject.merge ct fuel attr oattr with
          | Except.ok (attr2, _) =>
            StandardObject.mergeLoop ct fuel rest (dictSet attrs fldName attr2) oattrs
          | Except.error e => Except.error e
        else
          match oattr with
          | PyVal.list ys =>
            match StandardObject.mergeList attr ys with
            | Except.ok attr2 =>
              StandardObject.mergeLoop ct fuel rest (dictSet attrs fldName attr2) oattrs
            | Except.error e => Except.error e
          | PyVal.dict _ =>
            match StandardObject.mergeDict fuel attr oattr with
            | Except.ok attr2 =>
              StandardObject.mergeLoop ct fuel rest (dictSet attrs fldName attr2) oattrs
            | Except.error e => Except.error e
          | PyVal.none =>
            StandardObject.mergeLoop ct fuel rest (dictSet attrs fldName attr) oattrs
          | _ =>
            StandardObject.mergeLoop ct fuel rest (dictSet attrs fldName oattr) oattrs

end

/-- Concrete class table for witnesses and counterexamples: class 0 is a
`StandardObject` subclass with a single primitive field `v` (default
`None`); class 1 is a `DictOfObject` subclass with `value_class` 0; class 2
is a `ListOfObject` subclass with `item_class` 0; class 3 is a subclass of
class 0 inheriting its field table. -/
def exCT : List ClassDef :=
  [ClassDef.standard Option.none [("v", FieldDesc.primitiveField PyVal.none)],
   ClassDef.dictOf Option.none 0,
   ClassDef.listOf Option.none 0,
   ClassDef.standard (Option.some 0) [("v", FieldDesc.primitiveField PyVal.none)]]

example :
    BaseObject.from_primitive exCT 10 (newInstance exCT 1)
      (PyVal.dict [("k1", PyVal.dict [("v", PyVal.int 1)])]) =
    Except.ok
      (PyVal.obj 1 [("_data", PyVal.dict [("k1", PyVal.obj 0 [("v", PyVal.int 1)])])],
       PyVal.none) := rfl

example :
    (do
      let base ← (BaseObject.from_primitive exCT 10 (newInstance exCT 1)
        (PyVal.dict [("k1", PyVal.dict [("v", PyVal.int 1)])])).map Prod.fst
      let ovl ← (BaseObject.from_primitive exCT 10 (newInstance exCT 1)
        (PyVal.dict [("k1", PyVal.dict [("v", PyVal.int 2)]),
                     ("k2", PyVal.dict [("v", PyVal.int 3)])])).map Prod.fst
      BaseObject.merge exCT 10 base ovl) =
    Except.error PyErr.attributeError := rfl

example :
    StandardObject.mergeDict 10 (PyVal.dict [("k", PyVal.dict [("a", PyVal.int 1)])])
      (PyVal.dict [("k", PyVal.dict [("b", PyVal.int 2)])]) =
    Except.error PyErr.keyError := rfl

example :
    BaseObject.merge exCT 10 (PyVal.obj 0 [("v", PyVal.int 1)])
      (PyVal.obj 3 [("v", PyVal.int 5)]) =
    Except.ok (PyVal.obj 0 [("v", PyVal.int 5)], PyVal.obj 3 [("v", PyVal.int 5)]) := rfl

example :
    (BaseObject.from_primitive exCT 10 (newInstance exCT 0) (PyVal.dict [])).map Prod.snd =
    Except.ok (PyVal.obj 0 [("v", PyVal.none)]) := rfl

example :
    (BaseObject.from_primitive exCT 10 (newInstance exCT 2) (PyVal.list [])).map Prod.snd =
    Except.ok (PyVal.obj 2 [("_data", PyVal.list [])]) := rfl

example :
    BaseField.get_value_from_primitive exCT 10 (FieldDesc.objectField 1 false)
      (PyVal.dict []) = Except.ok PyVal.none := rfl

example : ListOfObject.validate (PyVal.list [PyVal.int 3]) = true := rfl

example :
    BaseObject.from_primitive exCT 10 (newInstance exCT 2) (PyVal.list [PyVal.int 3]) =
    Except.error PyErr.valueError := rfl

example : StandardObject.validate (PyVal.list []) = false := rfl

example : ListOfObject.validate (PyVal.dict []) = false := rfl

theorem dictGet_dictSet_self (l : List (String × PyVal)) (k : String) (v : PyVal) :
    dictGet (dictSet l k v) k = Option.some v := by
  induction l with
  | nil => simp [dictSet, dictGet]
  | cons hd tl ih =>
    obtain ⟨k1, v1⟩ := hd
    by_cases h : k1 = k
    · subst h
      simp [dictSet, dictGet]
    · simp [dictSet, dictGet, h, ih]

theorem dictGet_dictSet_ne (l : List (String × PyVal)) (k k1 : String) (v : PyVal)
    (h : k1 ≠ k) : dictGet (dictSet l k v) k1 = dictGet l k1 := by
  induction l with
  | nil =>
    simp [dictSet, dictGet, Ne.symm h]
  | cons hd tl ih =>
    obtain ⟨k2, v2⟩ := hd
    by_cases h2 : k2 = k
    · subst h2
      simp [dictSet, dictGet, Ne.symm h]
    · by_cases h3 : k2 = k1
      · subst h3
        simp [dictSet, dictGet, h2]
      · simp [dictSet, dictGet, h2, h3, ih]

/-- The embedding loop writes only names that are not declared on the
parent: every parent-declared name keeps its attribute value. -/
theorem embedLoop_frame (pnames : List String) (cattrs : List (String × PyVal))
    (cf : List (String × FieldDesc)) (attrs a2 : List (String × PyVal))
    (hrun : StandardObject.embedLoop pnames cattrs cf attrs = Except.ok a2)
    (m : String) (hm : m ∈ pnames) :
    dictGet a2 m = dictGet attrs m := by
  induction cf generalizing attrs with
  | nil =>
    simp [StandardObject.embedLoop] at hrun
    subst hrun
    rfl
  | cons hd rest ih =>
    obtain ⟨subName, fd⟩ := hd
    by_cases hin : subName ∈ pnames
    · simp [StandardObject.embedLoop, hin] at hrun
      exact ih attrs hrun
    · simp [StandardObject.embedLoop, hin] at hrun
      match hget : dictGet cattrs subName with
      | Option.none =>
        rw [hget] at hrun
        simp at hrun
      | Option.some subAttr =>
        rw [hget] at hrun
        simp at hrun
        have := ih (dictSet attrs subName subAttr) hrun
        rw [this]
        exact dictGet_dictSet_ne _ _ _ _ (fun he => hin (he ▸ hm))

/-- The embedding loop writes only child-declared names: any name outside
the child field table keeps its attribute value. -/
theorem embedLoop_frame_child (pnames : List String) (cattrs : List (String × PyVal))
    (cf : List (String × FieldDesc)) (attrs a2 : List (String × PyVal))
    (hrun : StandardObject.embedLoop pnames cattrs cf attrs = Except.ok a2)
    (m : String) (hm : m ∉ cf.map Prod.fst) :
    dictGet a2 m = dictGet attrs m := by
  induction cf generalizing attrs with
  | nil =>
    simp [StandardObject.embedLoop] at hrun
    subst hrun
    rfl
  | cons hd rest ih =>
    obtain ⟨subName, fd⟩ := hd
    simp only [List.map_cons, List.mem_cons, not_or] at hm
    have hm2 : m ∉ rest.map Prod.fst := hm.2
    by_cases hin : subName ∈ pnames
    · simp [StandardObject.embedLoop, hin] at hrun
      exact ih attrs hrun hm2
    · simp [StandardObject.embedLoop, hin] at hrun
      match hget : dictGet cattrs subName with
      | Option.none =>
        rw [hget] at hrun
        simp at hrun
      | Option.some subAttr =>
        rw [hget] at hrun
        simp at hrun
        rw [ih (dictSet attrs subName subAttr) hrun hm2]
        exact dictGet_dictSet_ne _ _ _ _ hm.1

/-- Every child-declared name outside the parent declaration ends up with
the child's attribute value after the embedding loop. -/
theorem embedLoop_copy (pnames : List String) (cattrs : List (String × PyVal))
    (cf : List (String × FieldDesc)) (attrs a2 : List (String × PyVal))
    (hnd : (cf.map Prod.fst).Nodup)
    (hrun : StandardObject.embedLoop pnames cattrs cf attrs = Except.ok a2)
    (y : String) (fd : FieldDesc) (hy : (y, fd) ∈ cf) (hyp : y ∉ pnames) :
    dictGet a2 y = dictGet cattrs y := by
  induction cf generalizing attrs with
  | nil => cases hy
  | cons hd rest ih =>
    obtain ⟨subName, g⟩ := hd
    simp only [List.map_cons, List.nodup_cons] at hnd
    rcases List.mem_cons.mp hy with hy1 | hy1
    · obtain ⟨hsub, _⟩ : y = subName ∧ fd = g := by simpa using hy1
      subst hsub
      simp [StandardObject.embedLoop, hyp] at hrun
      match hget : dictGet cattrs y with
      | Option.none =>
        rw [hget] at hrun
        simp at hrun
      | Option.some subAttr =>
        rw [hget] at hrun
        simp at hrun
        rw [embedLoop_frame_child pnames cattrs rest _ a2 hrun y hnd.1,
          dictGet_dictSet_self]
    · by_cases hin : subName ∈ pnames
      · simp [StandardObject.embedLoop, hin] at hrun
        exact ih attrs hnd.2 hrun hy1
      · simp [StandardObject.embedLoop, hin] at hrun
        match hget : dictGet cattrs subName with
        | Option.none =>
          rw [hget] at hrun
          simp at hrun
        | Option.some subAttr =>
          rw [hget] at hrun
          simp at hrun
          exact ih (dictSet attrs subName subAttr) hnd.2 hrun hy1

/-- C1: the claim says that `DictOfObject.merge` merges each overlay entry
into the (defaulted-if-absent) receiver entry, so that base
`{"k1": {"v": 1}}` merged with overlay `{"k1": {"v": 2}, "k2": {"v": 3}}`
yields `{"k1": {"v": 2}, "k2": {"v": 3}}`.  The code cannot do this: its
loop header `for key, value in overlay.items()` looks up an `items`
attribute that no class in the hierarchy defines, so the merge raises
`AttributeError` on the claim's own example (and on every overlay) instead
of producing the merged mapping.  This theorem evaluates the code on the
claim's example: both documents convert fine, and the merge fails. -/
theorem C1_dict_merge_raises_attribute_error :
    (do
      let base ← (BaseObject.from_primitive exCT 10 (newInstance exCT 1)
        (PyVal.dict [("k1", PyVal.dict [("v", PyVal.int 1)])])).map Prod.fst
      let ovl ← (BaseObject.from_primitive exCT 10 (newInstance exCT 1)
        (PyVal.dict [("k1", PyVal.dict [("v", PyVal.int 2)]),
                     ("k2", PyVal.dict [("v", PyVal.int 3)])])).map Prod.fst
      BaseObject.merge exCT 10 base ovl) =
    Except.error PyErr.attributeError := rfl

/-- C2: the claim says `_merge_dict` recursively merges at every key whose
value is a mapping on both sides.  The code computes
`node = result.setdefault(key, \x7b\x7d)` and then recurses on `node[key]` —
indexing the just-fetched sub-dict by the same key again — so on the
claim's own scenario (both sides map `k` to a nested mapping) it raises
`KeyError` (the sub-dict has no key `k`) instead of merging the two
sub-mappings.  This theorem evaluates the code at that failing input. -/
theorem C2_merge_dict_raises_key_error :
    StandardObject.mergeDict 10
      (PyVal.dict [("k", PyVal.dict [("a", PyVal.int 1)])])
      (PyVal.dict [("k", PyVal.dict [("b", PyVal.int 2)])]) =
    Except.error PyErr.keyError := rfl

/-- C3: the claim says `from_primitive` returns the receiver instance for
all three variants, so `ObjectField.get_value_from_primitive` never yields
`None`.  `StandardObject` and `ListOfObject` indeed return the mutated
receiver, but `DictOfObject.from_primitive` has no `return` statement:
Python returns `None`, and an `ObjectField` referencing a `DictOfObject`
class therefore resolves to `None` even on valid input.  This theorem
evaluates the three variants (and the field conversion) at valid inputs. -/
theorem C3_dict_from_primitive_returns_none :
    (BaseObject.from_primitive exCT 10 (newInstance exCT 0) (PyVal.dict [])).map Prod.snd =
      Except.ok (PyVal.obj 0 [("v", PyVal.none)]) ∧
    (BaseObject.from_primitive exCT 10 (newInstance exCT 2) (PyVal.list [])).map Prod.snd =
      Except.ok (PyVal.obj 2 [("_data", PyVal.list [])]) ∧
    (BaseObject.from_primitive exCT 10 (newInstance exCT 1) (PyVal.dict [])).map Prod.snd =
      Except.ok PyVal.none ∧
    BaseField.get_value_from_primitive exCT 10 (FieldDesc.objectField 1 false)
      (PyVal.dict []) = Except.ok PyVal.none :=
  ⟨rfl, rfl, rfl, rfl⟩

/-- C4 counterexample: the claim says merge raises a type error if and only
if the overlay is not an instance of the exact same concrete type.  The
code checks `isinstance(overlay, self.__class__)`, which accepts instances
of proper subclasses: in `exCT`, class 3 is a strict subclass of class 0,
yet merging a class-3 overlay into a class-0 receiver succeeds (the claim
predicts a type error here, the two concrete types being different). -/
theorem C4_subclass_overlay_accepted :
    (3 : Nat) ≠ 0 ∧
    BaseObject.merge exCT 10 (PyVal.obj 0 [("v", PyVal.int 1)])
      (PyVal.obj 3 [("v", PyVal.int 5)]) =
    Except.ok (PyVal.obj 0 [("v", PyVal.int 5)], PyVal.obj 3 [("v", PyVal.int 5)]) :=
  ⟨by decide, rfl⟩

/-- C4 (amended): merge raises a type error if the overlay is not an
instance of the receiver's class or of a subclass of it (Python
`isinstance`); the check is performed before any field is processed, for
all three variants, so when it fires the merge produces nothing but the
error and the receiver is untouched. -/
theorem C4_merge_type_check (ct : List ClassDef) (fuel : Nat) (cls : Nat)
    (attrs : List (String × PyVal)) (overlay : PyVal)
    (h : pyIsinstance ct overlay cls = false) :
    BaseObject.merge ct (fuel+1) (PyVal.obj cls attrs) overlay =
      Except.error PyErr.typeError := by
  simp only [BaseObject.merge]
  match hcd : ct[cls]? with
  | Option.none => simp
  | Option.some (ClassDef.standard p flds) => simp [h]
  | Option.some (ClassDef.listOf p i) => simp [h]
  | Option.some (ClassDef.dictOf p v) => simp [h]

/-- Witness for C4_merge_type_check: an int overlay is not an instance of
class 0, and the merge returns the type error. -/
theorem C4_merge_type_check_witness :
    pyIsinstance exCT (PyVal.int 3) 0 = false ∧
    BaseObject.merge exCT 10 (PyVal.obj 0 []) (PyVal.int 3) =
      Except.error PyErr.typeError :=
  ⟨rfl, C4_merge_type_check exCT 9 0 [] (PyVal.int 3) rfl⟩

/-- C9 counterexample: the claim says `from_primitive` raises a validation
error exactly when `validate` is false on its input.  Only one direction
holds: `validate` is true on the list `[3]` for the `ListOfObject` class 2,
yet `from_primitive` raises a validation error anyway, because the element
`3` is fed to the item class's `from_primitive`, whose own shape check
rejects a non-mapping. -/
theorem C9_error_despite_valid_shape :
    BaseObject.validate exCT 2 (PyVal.list [PyVal.int 3]) = true ∧
    BaseObject.from_primitive exCT 10 (newInstance exCT 2)
      (PyVal.list [PyVal.int 3]) = Except.error PyErr.valueError :=
  ⟨rfl, rfl⟩

/-- C9 (amended): for every variant, `from_primitive` raises a validation
error whenever `validate` is false on its input (the check is first, and
the error is surfaced, never caught); the shape checks reject a list for
`StandardObject` and a dict for `ListOfObject` exactly as claimed; but
when `validate` is true a validation error may still propagate out of the
nested conversion of an element or sub-value. -/
theorem C9_validate_gate :
    (∀ (ct : List ClassDef) (cls : Nat) (cd : ClassDef) (fuel : Nat)
      (attrs : List (String × PyVal)) (prim : PyVal),
      ct[cls]? = Option.some cd →
      BaseObject.validate ct cls prim = false →
      BaseObject.from_primitive ct (fuel+1) (PyVal.obj cls attrs) prim =
        Except.error PyErr.valueError) ∧
    (∀ prim, StandardObject.validate prim = true ↔ ∃ es, prim = PyVal.dict es) ∧
    (∀ prim, ListOfObject.validate prim = true ↔ ∃ xs, prim = PyVal.list xs) ∧
    (∀ prim, DictOfObject.validate prim = true ↔ ∃ es, prim = PyVal.dict es) := by
  refine ⟨?_, ?_, ?_, ?_⟩
  · intro ct cls cd fuel attrs prim hcd hval
    simp only [BaseObject.validate, hcd] at hval
    simp only [BaseObject.from_primitive, hcd]
    cases cd <;> cases prim <;>
      simp_all [StandardObject.validate, ListOfObject.validate, DictOfObject.validate]
  · intro prim
    cases prim <;> simp [StandardObject.validate]
  · intro prim
    cases prim <;> simp [ListOfObject.validate]
  · intro prim
    cases prim <;> simp [DictOfObject.validate]

/-- Witness for C9_validate_gate: a list input fails the shape check of
the standard class 0 and the conversion raises the validation error. -/
theorem C9_validate_gate_witness :
    BaseObject.from_primitive exCT 10 (PyVal.obj 0 []) (PyVal.list []) =
      Except.error PyErr.valueError ∧
    StandardObject.validate (PyVal.dict []) = true :=
  ⟨C9_validate_gate.1 exCT 0 (ClassDef.standard Option.none
      [("v", FieldDesc.primitiveField PyVal.none)]) 9 [] (PyVal.list []) rfl rfl,
   (C9_validate_gate.2.1 (PyVal.dict [])).mpr ⟨[], rfl⟩⟩

/-- C7: list-merge concatenation.  The `_merge_list` helper of
`StandardObject.merge` yields the base elements first, in order, then the
overlay elements, in order (with a null base treated as the empty
sequence); and `ListOfObject.merge` on two collections of the same class
concatenates the overlay's `_data` after the receiver's.  The length of
the result is the sum of the lengths, duplicates permitted, both facts
being immediate from the `xs ++ ys` form of the result. -/
theorem C7_list_merge_concatenates :
    (∀ xs ys : List PyVal,
      StandardObject.mergeList (PyVal.list xs) ys =
        Except.ok (PyVal.list (xs ++ ys)) ∧
      (xs ++ ys).length = xs.length + ys.length) ∧
    (∀ ys : List PyVal,
      StandardObject.mergeList PyVal.none ys = Except.ok (PyVal.list ys)) ∧
    (∀ (ct : List ClassDef) (fuel cls itemCls : Nat) (par : Option Nat)
      (attrs oattrs : List (String × PyVal)) (xs ys : List PyVal),
      ct[cls]? = Option.some (ClassDef.listOf par itemCls) →
      dictGet attrs "_data" = Option.some (PyVal.list xs) →
      dictGet oattrs "_data" = Option.some (PyVal.list ys) →
      BaseObject.merge ct (fuel+1) (PyVal.obj cls attrs) (PyVal.obj cls oattrs) =
        Except.ok
          (PyVal.obj cls (dictSet attrs "_data" (PyVal.list (xs ++ ys))),
           PyVal.obj cls oattrs)) := by
  refine ⟨?_, ?_, ?_⟩
  · intro xs ys
    refine ⟨?_, List.length_append xs ys⟩
    cases xs <;> simp [StandardObject.mergeList, pyTruthy]
  · intro ys
    simp [StandardObject.mergeList, pyTruthy]
  · intro ct fuel cls itemCls par attrs oattrs xs ys hcd hdata hodata
    simp [BaseObject.merge, hcd, pyIsinstance, isSubclass, hdata, hodata]

/-- Witness for C7_list_merge_concatenates: concrete collections of class 2
with one element each merge into the two-element concatenation. -/
theorem C7_list_merge_concatenates_witness :
    BaseObject.merge exCT 10
      (PyVal.obj 2 [("_data", PyVal.list [PyVal.int 1])])
      (PyVal.obj 2 [("_data", PyVal.list [PyVal.int 2])]) =
    Except.ok
      (PyVal.obj 2 [("_data", PyVal.list [PyVal.int 1, PyVal.int 2])],
       PyVal.obj 2 [("_data", PyVal.list [PyVal.int 2])]) :=
  C7_list_merge_concatenates.2.2 exCT 9 2 0 Option.none
    [("_data", PyVal.list [PyVal.int 1])] [("_data", PyVal.list [PyVal.int 2])]
    [PyVal.int 1] [PyVal.int 2] rfl rfl rfl

/-- The item loop of `ListOfObject.from_primitive` only appends: running it
from an accumulator is running it from the empty accumulator and prefixing
the accumulator onto the result. -/
theorem listFromPrimLoop_append (ct : List ClassDef) (itemCls : Nat)
    (items : List PyVal) :
    ∀ (fuel : Nat) (acc : List PyVal),
      ListOfObject.fromPrimLoop ct fuel itemCls items acc =
        (ListOfObject.fromPrimLoop ct fuel itemCls items []).map (acc ++ ·) := by
  induction items with
  | nil =>
    intro fuel acc
    cases fuel <;> simp [ListOfObject.fromPrimLoop, Except.map]
  | cons it rest ih =>
    intro fuel acc
    cases fuel with
    | zero => simp [ListOfObject.fromPrimLoop, Except.map]
    | succ f =>
      simp only [ListOfObject.fromPrimLoop]
      by_cases hn : it.isNone
      · simp [hn, ih f acc]
      · simp only [hn, Bool.false_eq_true, if_false]
        match hcv : BaseObject.from_primitive ct f (newInstance ct itemCls) it with
        | Except.error e => simp [Except.map]
        | Except.ok (inst, ret) =>
          simp only [Except.map]
          rw [ih f (acc ++ [ret]), ih f ([] ++ [ret])]
          match hrest : ListOfObject.fromPrimLoop ct f itemCls rest [] with
          | Except.error e => simp [Except.map]
          | Except.ok cs => simp [Except.map, List.append_assoc]

/-- When the source sequence has no null entries, the item loop appends one
converted element per source element. -/
theorem listFromPrimLoop_length (ct : List ClassDef) (itemCls : Nat) :
    ∀ (items : List PyVal) (fuel : Nat) (acc res : List PyVal),
      (∀ it ∈ items, it.isNone = false) →
      ListOfObject.fromPrimLoop ct fuel itemCls items acc = Except.ok res →
      res.length = acc.length + items.length := by
  intro items
  induction items with
  | nil =>
    intro fuel acc res hnn hrun
    cases fuel with
    | zero => cases hrun
    | succ f =>
      simp [ListOfObject.fromPrimLoop] at hrun
      subst hrun
      simp
  | cons it rest ih =>
    intro fuel acc res hnn hrun
    cases fuel with
    | zero => cases hrun
    | succ f =>
      have hn : it.isNone = false := hnn it (List.mem_cons_self .. )
      simp only [ListOfObject.fromPrimLoop, hn, Bool.false_eq_true, if_false] at hrun
      match hcv : BaseObject.from_primitive ct f (newInstance ct itemCls) it with
      | Except.error e =>
        rw [hcv] at hrun
        cases hrun
      | Except.ok (inst, ret) =>
        rw [hcv] at hrun
        have := ih f (acc ++ [ret]) res
          (fun x hx => hnn x (List.mem_cons_of_mem _ hx)) hrun
        simp at this
        simp [this]
        omega

/-- C10: `ListOfObject.from_primitive` does not reset the existing
contents: on a successful run over a source list, the resulting `_data` is
the pre-existing elements followed by the loop's newly converted elements
(so a fresh instance holds exactly the converted entries in source order),
the Python return value is the receiver itself, and when the source has no
null entries the number of new elements equals the source length. -/
theorem C10_list_from_primitive_appends (ct : List ClassDef)
    (fuel cls itemCls : Nat) (par : Option Nat) (attrs : List (String × PyVal))
    (d items : List PyVal) (res ret : PyVal)
    (hcd : ct[cls]? = Option.some (ClassDef.listOf par itemCls))
    (hdata : dictGet attrs "_data" = Option.some (PyVal.list d))
    (hrun : BaseObject.from_primitive ct (fuel+1) (PyVal.obj cls attrs)
      (PyVal.list items) = Except.ok (res, ret)) :
    ∃ cs, ListOfObject.fromPrimLoop ct fuel itemCls items [] = Except.ok cs ∧
      res = PyVal.obj cls (dictSet attrs "_data" (PyVal.list (d ++ cs))) ∧
      ret = res ∧
      ((∀ it ∈ items, it.isNone = false) → cs.length = items.length) := by
  simp only [BaseObject.from_primitive, hcd, hdata] at hrun
  rw [listFromPrimLoop_append ct itemCls items fuel d] at hrun
  match hloop : ListOfObject.fromPrimLoop ct fuel itemCls items [] with
  | Except.error e =>
    rw [hloop] at hrun
    cases hrun
  | Except.ok cs =>
    rw [hloop] at hrun
    simp only [Except.map] at hrun
    obtain ⟨h1, h2⟩ := Prod.mk.injEq .. ▸ (Except.ok.injEq .. ▸ hrun)
    refine ⟨cs, rfl, h1.symm, h2.symm.trans h1, ?_⟩
    intro hnn
    have := listFromPrimLoop_length ct itemCls items fuel [] cs hnn hloop
    simpa using this

/-- Witness for C10_list_from_primitive_appends: an instance of class 2
already holding one element converts the two-element source
`[{"v": 1}, {"v": 2}]` into a three-element collection, old element
first. -/
theorem C10_list_from_primitive_appends_witness :
    ∃ cs, ListOfObject.fromPrimLoop exCT 9 0
        [PyVal.dict [("v", PyVal.int 1)], PyVal.dict [("v", PyVal.int 2)]] [] =
        Except.ok cs ∧
      PyVal.obj 2 [("_data", PyVal.list
          [PyVal.obj 0 [("v", PyVal.int 9)],
           PyVal.obj 0 [("v", PyVal.int 1)],
           PyVal.obj 0 [("v", PyVal.int 2)]])] =
        PyVal.obj 2 (dictSet [("_data", PyVal.list [PyVal.obj 0 [("v", PyVal.int 9)]])]
          "_data" (PyVal.list ([PyVal.obj 0 [("v", PyVal.int 9)]] ++ cs))) ∧
      PyVal.obj 2 [("_data", PyVal.list
          [PyVal.obj 0 [("v", PyVal.int 9)],
           PyVal.obj 0 [("v", PyVal.int 1)],
           PyVal.obj 0 [("v", PyVal.int 2)]])] =
        PyVal.obj 2 [("_data", PyVal.list
          [PyVal.obj 0 [("v", PyVal.int 9)],
           PyVal.obj 0 [("v", PyVal.int 1)],
           PyVal.obj 0 [("v", PyVal.int 2)]])] ∧
      ((∀ it ∈ [PyVal.dict [("v", PyVal.int 1)], PyVal.dict [("v", PyVal.int 2)]],
          PyVal.isNone it = false) → cs.length = 2) :=
  C10_list_from_primitive_appends exCT 9 2 0 Option.none
    [("_data", PyVal.list [PyVal.obj 0 [("v", PyVal.int 9)]])]
    [PyVal.obj 0 [("v", PyVal.int 9)]]
    [PyVal.dict [("v", PyVal.int 1)], PyVal.dict [("v", PyVal.int 2)]]
    (PyVal.obj 2 [("_data", PyVal.list
      [PyVal.obj 0 [("v", PyVal.int 9)],
       PyVal.obj 0 [("v", PyVal.int 1)],
       PyVal.obj 0 [("v", PyVal.int 2)]])])
    (PyVal.obj 2 [("_data", PyVal.list
      [PyVal.obj 0 [("v", PyVal.int 9)],
       PyVal.obj 0 [("v", PyVal.int 1)],
       PyVal.obj 0 [("v", PyVal.int 2)]])])
    rfl rfl rfl

/-- One step of the merge field loop either fails or continues on the tail
with some value written at the head field's name. -/
theorem mergeLoop_cons_inv (ct : List ClassDef) (f : Nat) (fldName : String)
    (fd : FieldDesc) (rest : List (String × FieldDesc))
    (attrs oattrs a2 : List (String × PyVal))
    (hrun : StandardObject.mergeLoop ct (f+1) ((fldName, fd) :: rest) attrs oattrs =
      Except.ok a2) :
    ∃ w, StandardObject.mergeLoop ct f rest (dictSet attrs fldName w) oattrs =
      Except.ok a2 := by
  simp only [StandardObject.mergeLoop] at hrun
  repeat' split at hrun
  all_goals first
    | cases hrun
    | exact ⟨_, hrun⟩

/-- The merge field loop writes only declared field names: any name outside
the field list keeps its attribute value on the receiver. -/
theorem mergeLoop_frame (ct : List ClassDef) (fuel : Nat)
    (flds : List (String × FieldDesc)) (attrs oattrs a2 : List (String × PyVal))
    (hrun : StandardObject.mergeLoop ct fuel flds attrs oattrs = Except.ok a2)
    (m : String) (hm : m ∉ flds.map Prod.fst) :
    dictGet a2 m = dictGet attrs m := by
  induction flds generalizing fuel attrs with
  | nil =>
    cases fuel with
    | zero => cases hrun
    | succ f =>
      simp [StandardObject.mergeLoop] at hrun
      subst hrun
      rfl
  | cons hd rest ih =>
    obtain ⟨fldName, fd⟩ := hd
    simp only [List.map_cons, List.mem_cons, not_or] at hm
    cases fuel with
    | zero => cases hrun
    | succ f =>
      obtain ⟨w, hrun2⟩ := mergeLoop_cons_inv ct f fldName fd rest attrs oattrs a2 hrun
      rw [ih f (dictSet attrs fldName w) hrun2 hm.2]
      exact dictGet_dictSet_ne _ _ _ _ hm.1

/-- A declared field whose receiver value is not a schema object and whose
overlay value is `None` keeps its receiver value across the merge loop. -/
theorem mergeLoop_null_keeps (ct : List ClassDef) (fuel : Nat)
    (flds : List (String × FieldDesc)) (attrs oattrs a2 : List (String × PyVal))
    (hnd : (flds.map Prod.fst).Nodup)
    (hrun : StandardObject.mergeLoop ct fuel flds attrs oattrs = Except.ok a2)
    (n : String) (fd : FieldDesc) (hmem : (n, fd) ∈ flds)
    (a : PyVal) (ha : dictGet attrs n = Option.some a) (hobj : a.isObj = false)
    (hov : dictGet oattrs n = Option.some PyVal.none) :
    dictGet a2 n = Option.some a := by
  induction flds generalizing fuel attrs with
  | nil => cases hmem
  | cons hd rest ih =>
    obtain ⟨fldName, fd1⟩ := hd
    simp only [List.map_cons, List.nodup_cons] at hnd
    cases fuel with
    | zero => cases hrun
    | succ f =>
      rcases List.mem_cons.mp hmem with hmem1 | hmem1
      · obtain ⟨hn1, _⟩ : n = fldName ∧ fd = fd1 := by simpa using hmem1
        subst hn1
        simp only [StandardObject.mergeLoop, ha, hov, hobj, Bool.false_eq_true,
          if_false] at hrun
        rw [mergeLoop_frame ct f rest (dictSet attrs n a) oattrs a2 hrun n hnd.1,
          dictGet_dictSet_self]
      · have hne : fldName ≠ n := by
          intro he
          exact hnd.1 (he ▸ (List.mem_map.mpr ⟨(n, fd), hmem1, rfl⟩))
        obtain ⟨w, hrun2⟩ := mergeLoop_cons_inv ct f fldName fd1 rest attrs oattrs a2 hrun
        exact ih f (dictSet attrs fldName w) hnd.2 hrun2 hmem1
          (by rw [dictGet_dictSet_ne _ _ _ _ (Ne.symm hne)]; exact ha)

/-- Merge never assigns into the overlay: a successful merge returns the
overlay argument itself as its second component, for every variant. -/
theorem merge_overlay_unchanged (ct : List ClassDef) (fuel : Nat)
    (self overlay s2 o2 : PyVal)
    (hrun : BaseObject.merge ct fuel self overlay = Except.ok (s2, o2)) :
    o2 = overlay := by
  cases fuel with
  | zero => cases hrun
  | succ f =>
    cases self <;> simp only [BaseObject.merge] at hrun
    all_goals try cases hrun
    repeat' split at hrun
    all_goals try cases hrun
    all_goals rfl

/-- A successful merge on a receiver of a standard class runs the field
loop on the overlay's attributes and wraps the result back into the
receiver instance. -/
theorem merge_std_inv (ct : List ClassDef) (fuel cls : Nat) (par : Option Nat)
    (flds : List (String × FieldDesc)) (attrs : List (String × PyVal))
    (overlay s2 o2 : PyVal)
    (hcd : ct[cls]? = Option.some (ClassDef.standard par flds))
    (hrun : BaseObject.merge ct (fuel+1) (PyVal.obj cls attrs) overlay =
      Except.ok (s2, o2)) :
    ∃ oc oattrs a2, overlay = PyVal.obj oc oattrs ∧
      StandardObject.mergeLoop ct fuel flds attrs oattrs = Except.ok a2 ∧
      s2 = PyVal.obj cls a2 ∧ o2 = overlay := by
  simp only [BaseObject.merge, hcd] at hrun
  split at hrun
  · split at hrun
    · split at hrun
      · rename_i a2 hl
        cases hrun
        exact ⟨_, _, _, rfl, hl, rfl, rfl⟩
      · cases hrun
    · cases hrun
  · cases hrun

/-- C6: frame property of `StandardObject.merge`.  First, merge never
mutates the overlay: every variant returns the overlay argument unchanged
next to the mutated receiver.  Second, for a declared field whose overlay
value is null and whose current value is not a schema object (so neither
the recursive branch nor, the overlay value being `None`, the
list/mapping branches apply), the receiver's value after the merge equals
its value before. -/
theorem C6_merge_null_frame :
    (∀ (ct : List ClassDef) (fuel : Nat) (self overlay s2 o2 : PyVal),
      BaseObject.merge ct fuel self overlay = Except.ok (s2, o2) → o2 = overlay) ∧
    (∀ (ct : List ClassDef) (fuel cls : Nat) (par : Option Nat)
      (flds : List (String × FieldDesc)) (attrs : List (String × PyVal))
      (oc : Nat) (oattrs : List (String × PyVal)) (s2 o2 : PyVal)
      (n : String) (fd : FieldDesc) (a : PyVal),
      ct[cls]? = Option.some (ClassDef.standard par flds) →
      (flds.map Prod.fst).Nodup →
      (n, fd) ∈ flds →
      dictGet attrs n = Option.some a →
      a.isObj = false →
      dictGet oattrs n = Option.some PyVal.none →
      BaseObject.merge ct (fuel+1) (PyVal.obj cls attrs) (PyVal.obj oc oattrs) =
        Except.ok (s2, o2) →
      o2 = PyVal.obj oc oattrs ∧
        ∃ a2, s2 = PyVal.obj cls a2 ∧ dictGet a2 n = Option.some a) := by
  constructor
  · exact fun ct fuel self overlay s2 o2 h =>
      merge_overlay_unchanged ct fuel self overlay s2 o2 h
  · intro ct fuel cls par flds attrs oc oattrs s2 o2 n fd a hcd hnd hmem ha hobj hov hrun
    obtain ⟨oc2, oattrs2, a2, hoeq, hloop, hs2, ho2⟩ :=
      merge_std_inv ct fuel cls par flds attrs (PyVal.obj oc oattrs) s2 o2 hcd hrun
    obtain ⟨rfl, rfl⟩ : oc = oc2 ∧ oattrs = oattrs2 := by
      have := hoeq
      simp [PyVal.obj.injEq] at this
      exact this
    exact ⟨ho2, a2, hs2,
      mergeLoop_null_keeps ct fuel flds attrs oattrs a2 hnd hloop n fd hmem a ha hobj hov⟩

/-- Witness for C6_merge_null_frame: merging an overlay whose field `v` is
null into a receiver whose `v` is 7 keeps `v = 7` and leaves the overlay
untouched. -/
theorem C6_merge_null_frame_witness :
    BaseObject.merge exCT 10 (PyVal.obj 0 [("v", PyVal.int 7)])
      (PyVal.obj 0 [("v", PyVal.none)]) =
      Except.ok (PyVal.obj 0 [("v", PyVal.int 7)], PyVal.obj 0 [("v", PyVal.none)]) ∧
    (PyVal.obj 0 [("v", PyVal.none)] : PyVal) = PyVal.obj 0 [("v", PyVal.none)] ∧
    ∃ a2, (PyVal.obj 0 [("v", PyVal.int 7)] : PyVal) = PyVal.obj 0 a2 ∧
      dictGet a2 "v" = Option.some (PyVal.int 7) := by
  refine ⟨rfl, ?_⟩
  exact C6_merge_null_frame.2 exCT 9 0 Option.none
    [("v", FieldDesc.primitiveField PyVal.none)] [("v", PyVal.int 7)]
    0 [("v", PyVal.none)] (PyVal.obj 0 [("v", PyVal.int 7)])
    (PyVal.obj 0 [("v", PyVal.none)]) "v" (FieldDesc.primitiveField PyVal.none)
    (PyVal.int 7) rfl (by simp) (by simp) rfl rfl rfl rfl

/-- The embedding step preserves every parent-declared attribute. -/
theorem embedObject_frame (ct : List ClassDef) (pcls : Nat)
    (attrs : List (String × PyVal)) (child : PyVal) (a2 : List (String × PyVal))
    (hrun : StandardObject.embedObject ct pcls attrs child = Except.ok a2)
    (m : String) (hm : m ∈ (classFields ct pcls).map Prod.fst) :
    dictGet a2 m = dictGet attrs m := by
  cases child <;> simp only [StandardObject.embedObject] at hrun
  all_goals try cases hrun
  split at hrun
  · exact embedLoop_frame _ _ _ _ _ hrun m hm
  · cases hrun

/-- One step of the default loop either fails or continues on the tail,
having written the head field's freshly computed default (and, for an
embedded field, applied the embedding step). -/
theorem defaultLoop_cons_inv (ct : List ClassDef) (f cls : Nat) (fldName : String)
    (fld : FieldDesc) (rest : List (String × FieldDesc))
    (attrs a2 : List (String × PyVal))
    (hrun : StandardObject.defaultLoop ct (f+1) cls ((fldName, fld) :: rest) attrs =
      Except.ok a2) :
    ∃ attr attrs2, BaseField.get_default_value ct f fld = Except.ok attr ∧
      StandardObject.defaultLoop ct f cls rest attrs2 = Except.ok a2 ∧
      ((fld.isEmbedded = false ∧ attrs2 = dictSet attrs fldName attr) ∨
       (fld.isEmbedded = true ∧
         StandardObject.embedObject ct cls (dictSet attrs fldName attr) attr =
           Except.ok attrs2)) := by
  simp only [StandardObject.defaultLoop] at hrun
  split at hrun
  · rename_i attr hgd
    split at hrun
    · rename_i hemb
      split at hrun
      · rename_i attrs2 hembed
        exact ⟨attr, attrs2, hgd, hrun, Or.inr ⟨hemb, hembed⟩⟩
      · cases hrun
    · rename_i hemb
      exact ⟨attr, _, hgd, hrun, Or.inl ⟨by simpa using hemb, rfl⟩⟩
  · cases hrun

/-- The default loop writes, besides embedded copies (which never touch
parent-declared names), only the field names of its suffix: a
parent-declared name outside the suffix keeps its value. -/
theorem defaultLoop_frame (ct : List ClassDef) (fuel cls : Nat)
    (flds : List (String × FieldDesc)) (attrs a2 : List (String × PyVal))
    (hrun : StandardObject.defaultLoop ct fuel cls flds attrs = Except.ok a2)
    (m : String) (hm : m ∈ (classFields ct cls).map Prod.fst)
    (hnot : m ∉ flds.map Prod.fst) :
    dictGet a2 m = dictGet attrs m := by
  induction flds generalizing fuel attrs with
  | nil =>
    cases fuel with
    | zero => cases hrun
    | succ f =>
      simp [StandardObject.defaultLoop] at hrun
      subst hrun
      rfl
  | cons hd rest ih =>
    obtain ⟨fldName, fld⟩ := hd
    simp only [List.map_cons, List.mem_cons, not_or] at hnot
    cases fuel with
    | zero => cases hrun
    | succ f =>
      obtain ⟨attr, attrs2, hgd, hrest, hbr⟩ :=
        defaultLoop_cons_inv ct f cls fldName fld rest attrs a2 hrun
      rw [ih f attrs2 hrest hnot.2]
      rcases hbr with ⟨_, rfl⟩ | ⟨_, hembed⟩
      · exact dictGet_dictSet_ne _ _ _ _ hnot.1
      · rw [embedObject_frame ct cls _ attr attrs2 hembed m hm]
        exact dictGet_dictSet_ne _ _ _ _ hnot.1

/-- When a suffix of the field table contains no embedded field, the
default loop writes nothing but the suffix's own field names. -/
theorem defaultLoop_frame_noembed (ct : List ClassDef) (fuel cls : Nat)
    (flds : List (String × FieldDesc)) (attrs a2 : List (String × PyVal))
    (hne : ∀ p ∈ flds, FieldDesc.isEmbedded p.2 = false)
    (hrun : StandardObject.defaultLoop ct fuel cls flds attrs = Except.ok a2)
    (m : String) (hnot : m ∉ flds.map Prod.fst) :
    dictGet a2 m = dictGet attrs m := by
  induction flds generalizing fuel attrs with
  | nil =>
    cases fuel with
    | zero => cases hrun
    | succ f =>
      simp [StandardObject.defaultLoop] at hrun
      subst hrun
      rfl
  | cons hd rest ih =>
    obtain ⟨fldName, fld⟩ := hd
    simp only [List.map_cons, List.mem_cons, not_or] at hnot
    cases fuel with
    | zero => cases hrun
    | succ f =>
      obtain ⟨attr, attrs2, hgd, hrest, hbr⟩ :=
        defaultLoop_cons_inv ct f cls fldName fld rest attrs a2 hrun
      rcases hbr with ⟨_, rfl⟩ | ⟨hembT, _⟩
      · rw [ih f _ (fun p hp => hne p (List.mem_cons_of_mem _ hp)) hrest hnot.2]
        exact dictGet_dictSet_ne _ _ _ _ hnot.1
      · exact absurd (hne (fldName, fld) (List.mem_cons_self .. )) (by simp [hembT])

/-- Every declared field name ends up holding the value its own descriptor
computes (at the recursion budget current at its loop position). -/
theorem defaultLoop_value (ct : List ClassDef) (fuel cls : Nat)
    (flds : List (String × FieldDesc)) (attrs a2 : List (String × PyVal))
    (hsub : ∀ x ∈ flds.map Prod.fst, x ∈ (classFields ct cls).map Prod.fst)
    (hnd : (flds.map Prod.fst).Nodup)
    (hrun : StandardObject.defaultLoop ct fuel cls flds attrs = Except.ok a2)
    (n : String) (fd : FieldDesc) (hmem : (n, fd) ∈ flds) :
    ∃ f2 v, f2 ≤ fuel ∧ BaseField.get_default_value ct f2 fd = Except.ok v ∧
      dictGet a2 n = Option.some v := by
  induction flds generalizing fuel attrs with
  | nil => cases hmem
  | cons hd rest ih =>
    obtain ⟨fldName, fld⟩ := hd
    simp only [List.map_cons, List.nodup_cons] at hnd
    cases fuel with
    | zero => cases hrun
    | succ f =>
      obtain ⟨attr, attrs2, hgd, hrest, hbr⟩ :=
        defaultLoop_cons_inv ct f cls fldName fld rest attrs a2 hrun
      rcases List.mem_cons.mp hmem with hmem1 | hmem1
      · obtain ⟨hn1, hfd1⟩ : n = fldName ∧ fd = fld := by simpa using hmem1
        subst hn1
        subst hfd1
        refine ⟨f, attr, Nat.le_succ f, hgd, ?_⟩
        have hmn : n ∈ (classFields ct cls).map Prod.fst := hsub n (by simp)
        rw [defaultLoop_frame ct f cls rest attrs2 a2 hrest n hmn hnd.1]
        rcases hbr with ⟨_, rfl⟩ | ⟨_, hembed⟩
        · exact dictGet_dictSet_self _ _ _
        · rw [embedObject_frame ct cls _ attr attrs2 hembed n hmn]
          exact dictGet_dictSet_self _ _ _
      · obtain ⟨f2, v, hf2, hgd2, hget⟩ := ih f attrs2
          (fun x hx => hsub x (by simp [hx])) hnd.2 hrest hmem1
        exact ⟨f2, v, Nat.le_succ_of_le hf2, hgd2, hget⟩

/-- Embedding a standard-class child runs the embed loop against the
child's field table. -/
theorem embedObject_copy (ct : List ClassDef) (pcls : Nat)
    (attrs : List (String × PyVal)) (ccls : Nat)
    (cattrs a2 : List (String × PyVal)) (cpar : Option Nat)
    (cflds : List (String × FieldDesc))
    (hc : ct[ccls]? = Option.some (ClassDef.standard cpar cflds))
    (hcnd : (cflds.map Prod.fst).Nodup)
    (hrun : StandardObject.embedObject ct pcls attrs (PyVal.obj ccls cattrs) =
      Except.ok a2)
    (y : String) (yfd : FieldDesc) (hyc : (y, yfd) ∈ cflds)
    (hyp : y ∉ (classFields ct pcls).map Prod.fst) :
    dictGet a2 y = dictGet cattrs y := by
  simp only [StandardObject.embedObject, hc] at hrun
  exact embedLoop_copy _ _ _ _ _ hcnd hrun y yfd hyc hyp

/-- A successful default of an instance of a standard class is again an
instance of that class. -/
theorem default_std_shape (ct : List ClassDef) (fuel cls : Nat)
    (attrs : List (String × PyVal)) (r : PyVal) (par : Option Nat)
    (flds : List (String × FieldDesc))
    (hc : ct[cls]? = Option.some (ClassDef.standard par flds))
    (h : BaseObject.default ct fuel (PyVal.obj cls attrs) = Except.ok r) :
    ∃ a2, r = PyVal.obj cls a2 ∧
      StandardObject.defaultLoop ct (fuel-1) cls flds attrs = Except.ok a2 := by
  cases fuel with
  | zero => cases h
  | succ f =>
    simp only [BaseObject.default, hc] at h
    split at h
    · rename_i a hl
      cases h
      exact ⟨a, rfl, hl⟩
    · cases h

/-- The default value of an `ObjectField` referencing a standard class is
an instance of that class. -/
theorem get_default_objectField_shape (ct : List ClassDef) (fuel c : Nat)
    (emb : Bool) (r : PyVal) (cpar : Option Nat)
    (cflds : List (String × FieldDesc))
    (hc : ct[c]? = Option.some (ClassDef.standard cpar cflds))
    (h : BaseField.get_default_value ct fuel (FieldDesc.objectField c emb) =
      Except.ok r) :
    ∃ cattrs, r = PyVal.obj c cattrs := by
  cases fuel with
  | zero => cases h
  | succ f =>
    simp only [BaseField.get_default_value] at h
    have hnew : newInstance ct c = PyVal.obj c [] := by simp [newInstance, hc]
    rw [hnew] at h
    obtain ⟨a2, hr, _⟩ := default_std_shape ct f c [] r cpar cflds hc h
    exact ⟨a2, hr⟩

/-- Names declared only on the class of the unique embedded field end up on
the parent with the embedded child's attribute values, after the default
loop. -/
theorem defaultLoop_embed_copy (ct : List ClassDef) (fuel cls : Nat)
    (flds : List (String × FieldDesc)) (attrs a2 : List (String × PyVal))
    (hsub : ∀ x ∈ flds.map Prod.fst, x ∈ (classFields ct cls).map Prod.fst)
    (hnd : (flds.map Prod.fst).Nodup)
    (eName : String) (ccls : Nat)
    (hmemE : (eName, FieldDesc.objectField ccls true) ∈ flds)
    (huniq : ∀ p ∈ flds, FieldDesc.isEmbedded p.2 = true →
      p = (eName, FieldDesc.objectField ccls true))
    (cpar : Option Nat) (cflds : List (String × FieldDesc))
    (hc : ct[ccls]? = Option.some (ClassDef.standard cpar cflds))
    (hcnd : (cflds.map Prod.fst).Nodup)
    (hrun : StandardObject.defaultLoop ct fuel cls flds attrs = Except.ok a2)
    (y : String) (yfd : FieldDesc) (hyc : (y, yfd) ∈ cflds)
    (hyp : y ∉ (classFields ct cls).map Prod.fst) :
    ∃ f2 cattrs, f2 ≤ fuel ∧
      BaseField.get_default_value ct f2 (FieldDesc.objectField ccls true) =
        Except.ok (PyVal.obj ccls cattrs) ∧
      dictGet a2 y = dictGet cattrs y := by
  induction flds generalizing fuel attrs with
  | nil => cases hmemE
  | cons hd rest ih =>
    obtain ⟨fldName, fld⟩ := hd
    simp only [List.map_cons, List.nodup_cons] at hnd
    cases fuel with
    | zero => cases hrun
    | succ f =>
      obtain ⟨attr, attrs2, hgd, hrest, hbr⟩ :=
        defaultLoop_cons_inv ct f cls fldName fld rest attrs a2 hrun
      by_cases hE : fldName = eName ∧ fld = FieldDesc.objectField ccls true
      · obtain ⟨rfl, rfl⟩ := hE
        obtain ⟨cattrs, rfl⟩ :=
          get_default_objectField_shape ct f ccls true attr cpar cflds hc hgd
        rcases hbr with ⟨hembF, _⟩ | ⟨_, hembed⟩
        · simp [FieldDesc.isEmbedded] at hembF
        · refine ⟨f, cattrs, Nat.le_succ f, hgd, ?_⟩
          have hnoe : ∀ p ∈ rest, FieldDesc.isEmbedded p.2 = false := by
            intro p hp
            by_contra hbad
            have hpe := huniq p (List.mem_cons_of_mem _ hp)
              (by revert hbad; cases FieldDesc.isEmbedded p.2 <;> simp)
            exact hnd.1 (by rw [hpe] at hp; exact List.mem_map.mpr ⟨_, hp, rfl⟩)
          have hyrest : y ∉ rest.map Prod.fst := fun hyr => hyp (hsub y (by simp [hyr]))
          rw [defaultLoop_frame_noembed ct f cls rest attrs2 a2 hnoe hrest y hyrest]
          exact embedObject_copy ct cls _ ccls cattrs attrs2 cpar cflds hc hcnd
            hembed y yfd hyc hyp
      · have hmemE2 : (eName, FieldDesc.objectField ccls true) ∈ rest := by
          rcases List.mem_cons.mp hmemE with h1 | h1
          · exact absurd (by simpa using h1.symm) hE
          · exact h1
        have hembF : FieldDesc.isEmbedded fld = false := by
          by_contra hbad
          have := huniq (fldName, fld) (List.mem_cons_self .. )
            (by revert hbad; cases FieldDesc.isEmbedded fld <;> simp)
          exact hE (by simpa using this)
        rcases hbr with ⟨_, rfl⟩ | ⟨hembT, _⟩
        · obtain ⟨f2, cattrs, hf2, hgd2, hget⟩ := ih f _
            (fun x hx => hsub x (by simp [hx])) hnd.2 hmemE2
            (fun p hp h2 => huniq p (List.mem_cons_of_mem _ hp) h2) hrest
          exact ⟨f2, cattrs, Nat.le_succ_of_le hf2, hgd2, hget⟩
        · rw [hembT] at hembF
          cases hembF

/-- Resolution of a non-embedded field by `StandardObject.from_primitive`
(base.py 102-107): compute the field's default, then override it with the
conversion of `primitive.get(fld_name, None)` when that sub-value is not
null. -/
def StandardObject.resolveField (ct : List ClassDef) (fuel : Nat) (fldName : String)
    (fld : FieldDesc) (entries : List (String × PyVal)) : Except PyErr PyVal :=
  match BaseField.get_default_value ct fuel fld with
  | Except.ok dflt =>
    let primFld := match dictGet entries fldName with
      | Option.some v => v
      | Option.none => PyVal.none
    if primFld.isNone then Except.ok dflt
    else BaseField.get_value_from_primitive ct fuel fld primFld
  | Except.error e => Except.error e

/-- The value `StandardObject.from_primitive` computes for one declared
field through that field's own descriptor: an embedded object field
converts from the whole primitive, every other field resolves
default-then-override. -/
def StandardObject.fieldFromPrim (ct : List ClassDef) (fuel : Nat) (fldName : String)
    (fld : FieldDesc) (entries : List (String × PyVal)) : Except PyErr PyVal :=
  if fld.isEmbedded then
    BaseField.get_value_from_primitive ct fuel fld (PyVal.dict entries)
  else
    StandardObject.resolveField ct fuel fldName fld entries

/-- One step of the conversion loop either fails or continues on the tail,
having written the value the head field's descriptor computes (and, for an
embedded field, applied the embedding step). -/
theorem fromPrimLoop_cons_inv (ct : List ClassDef) (f cls : Nat) (fldName : String)
    (fld : FieldDesc) (rest : List (String × FieldDesc))
    (entries : List (String × PyVal)) (attrs a2 : List (String × PyVal))
    (hrun : StandardObject.fromPrimLoop ct (f+1) cls ((fldName, fld) :: rest)
      entries attrs = Except.ok a2) :
    ∃ attr attrs2,
      StandardObject.fieldFromPrim ct f fldName fld entries = Except.ok attr ∧
      StandardObject.fromPrimLoop ct f cls rest entries attrs2 = Except.ok a2 ∧
      ((fld.isEmbedded = false ∧ attrs2 = dictSet attrs fldName attr) ∨
       (fld.isEmbedded = true ∧
         StandardObject.embedObject ct cls (dictSet attrs fldName attr) attr =
           Except.ok attrs2)) := by
  simp only [StandardObject.fromPrimLoop] at hrun
  split at hrun
  · rename_i hemb
    split at hrun
    · rename_i attr hgv
      split at hrun
      · rename_i attrs2 hembed
        refine ⟨attr, attrs2, ?_, hrun, Or.inr ⟨hemb, hembed⟩⟩
        simpa [StandardObject.fieldFromPrim, hemb] using hgv
      · cases hrun
    · cases hrun
  · rename_i hembn
    split at hrun
    · rename_i dflt hgd
      split at hrun
      · rename_i attr hif
        refine ⟨attr, _, ?_, hrun, Or.inl ⟨by simpa using hembn, rfl⟩⟩
        simp only [StandardObject.fieldFromPrim, StandardObject.resolveField,
          (by simpa using hembn : fld.isEmbedded = false), Bool.false_eq_true,
          if_false, hgd]
        exact hif
      · cases hrun
    · cases hrun

/-- The conversion loop writes, besides embedded copies (which never touch
parent-declared names), only the field names of its suffix. -/
theorem fromPrimLoop_frame (ct : List ClassDef) (fuel cls : Nat)
    (flds : List (String × FieldDesc)) (entries : List (String × PyVal))
    (attrs a2 : List (String × PyVal))
    (hrun : StandardObject.fromPrimLoop ct fuel cls flds entries attrs = Except.ok a2)
    (m : String) (hm : m ∈ (classFields ct cls).map Prod.fst)
    (hnot : m ∉ flds.map Prod.fst) :
    dictGet a2 m = dictGet attrs m := by
  induction flds generalizing fuel attrs with
  | nil =>
    cases fuel with
    | zero => cases hrun
    | succ f =>
      simp [StandardObject.fromPrimLoop] at hrun
      subst hrun
      rfl
  | cons hd rest ih =>
    obtain ⟨fldName, fld⟩ := hd
    simp only [List.map_cons, List.mem_cons, not_or] at hnot
    cases fuel with
    | zero => cases hrun
    | succ f =>
      obtain ⟨attr, attrs2, hfv, hrest, hbr⟩ :=
        fromPrimLoop_cons_inv ct f cls fldName fld rest entries attrs a2 hrun
      rw [ih f attrs2 hrest hnot.2]
      rcases hbr with ⟨_, rfl⟩ | ⟨_, hembed⟩
      · exact dictGet_dictSet_ne _ _ _ _ hnot.1
      · rw [embedObject_frame ct cls _ attr attrs2 hembed m hm]
        exact dictGet_dictSet_ne _ _ _ _ hnot.1

/-- When a suffix of the field table contains no embedded field, the
conversion loop writes nothing but the suffix's own field names. -/
theorem fromPrimLoop_frame_noembed (ct : List ClassDef) (fuel cls : Nat)
    (flds : List (String × FieldDesc)) (entries : List (String × PyVal))
    (attrs a2 : List (String × PyVal))
    (hne : ∀ p ∈ flds, FieldDesc.isEmbedded p.2 = false)
    (hrun : StandardObject.fromPrimLoop ct fuel cls flds entries attrs = Except.ok a2)
    (m : String) (hnot : m ∉ flds.map Prod.fst) :
    dictGet a2 m = dictGet attrs m := by
  induction flds generalizing fuel attrs with
  | nil =>
    cases fuel with
    | zero => cases hrun
    | succ f =>
      simp [StandardObject.fromPrimLoop] at hrun
      subst hrun
      rfl
  | cons hd rest ih =>
    obtain ⟨fldName, fld⟩ := hd
    simp only [List.map_cons, List.mem_cons, not_or] at hnot
    cases fuel with
    | zero => cases hrun
    | succ f =>
      obtain ⟨attr, attrs2, hfv, hrest, hbr⟩ :=
        fromPrimLoop_cons_inv ct f cls fldName fld rest entries attrs a2 hrun
      rcases hbr with ⟨_, rfl⟩ | ⟨hembT, _⟩
      · rw [ih f _ (fun p hp => hne p (List.mem_cons_of_mem _ hp)) hrest hnot.2]
        exact dictGet_dictSet_ne _ _ _ _ hnot.1
      · exact absurd (hne (fldName, fld) (List.mem_cons_self .. )) (by simp [hembT])

/-- Every declared field name ends up holding the value its own descriptor
computes during conversion (at the recursion budget current at its loop
position). -/
theorem fromPrimLoop_value (ct : List ClassDef) (fuel cls : Nat)
    (flds : List (String × FieldDesc)) (entries : List (String × PyVal))
    (attrs a2 : List (String × PyVal))
    (hsub : ∀ x ∈ flds.map Prod.fst, x ∈ (classFields ct cls).map Prod.fst)
    (hnd : (flds.map Prod.fst).Nodup)
    (hrun : StandardObject.fromPrimLoop ct fuel cls flds entries attrs = Except.ok a2)
    (n : String) (fd : FieldDesc) (hmem : (n, fd) ∈ flds) :
    ∃ f2 v, f2 ≤ fuel ∧
      StandardObject.fieldFromPrim ct f2 n fd entries = Except.ok v ∧
      dictGet a2 n = Option.some v := by
  induction flds generalizing fuel attrs with
  | nil => cases hmem
  | cons hd rest ih =>
    obtain ⟨fldName, fld⟩ := hd
    simp only [List.map_cons, List.nodup_cons] at hnd
    cases fuel with
    | zero => cases hrun
    | succ f =>
      obtain ⟨attr, attrs2, hfv, hrest, hbr⟩ :=
        fromPrimLoop_cons_inv ct f cls fldName fld rest entries attrs a2 hrun
      rcases List.mem_cons.mp hmem with hmem1 | hmem1
      · obtain ⟨hn1, hfd1⟩ : n = fldName ∧ fd = fld := by simpa using hmem1
        subst hn1
        subst hfd1
        refine ⟨f, attr, Nat.le_succ f, hfv, ?_⟩
        have hmn : n ∈ (classFields ct cls).map Prod.fst := hsub n (by simp)
        rw [fromPrimLoop_frame ct f cls rest entries attrs2 a2 hrest n hmn hnd.1]
        rcases hbr with ⟨_, rfl⟩ | ⟨_, hembed⟩
        · exact dictGet_dictSet_self _ _ _
        · rw [embedObject_frame ct cls _ attr attrs2 hembed n hmn]
          exact dictGet_dictSet_self _ _ _
      · obtain ⟨f2, v, hf2, hfv2, hget⟩ := ih f attrs2
          (fun x hx => hsub x (by simp [hx])) hnd.2 hrest hmem1
        exact ⟨f2, v, Nat.le_succ_of_le hf2, hfv2, hget⟩

/-- A successful conversion on an instance of a standard class validates a
dict input, runs the field loop, and returns the mutated receiver (also as
the Python return value). -/
theorem from_primitive_std_shape (ct : List ClassDef) (fuel cls : Nat)
    (attrs : List (String × PyVal)) (prim : PyVal) (pair : PyVal × PyVal)
    (par : Option Nat) (flds : List (String × FieldDesc))
    (hc : ct[cls]? = Option.some (ClassDef.standard par flds))
    (h : BaseObject.from_primitive ct fuel (PyVal.obj cls attrs) prim =
      Except.ok pair) :
    ∃ entries a2, prim = PyVal.dict entries ∧
      StandardObject.fromPrimLoop ct (fuel-1) cls flds entries attrs =
        Except.ok a2 ∧
      pair = (PyVal.obj cls a2, PyVal.obj cls a2) := by
  cases fuel with
  | zero => cases h
  | succ f =>
    simp only [BaseObject.from_primitive, hc] at h
    split at h
    · rename_i entries
      split at h
      · rename_i a2 hl
        cases h
        exact ⟨entries, a2, rfl, hl, rfl⟩
      · cases h
    · cases h

/-- The conversion of an `ObjectField` referencing a standard class yields
an instance of that class. -/
theorem get_value_objectField_shape (ct : List ClassDef) (fuel c : Nat)
    (emb : Bool) (prim r : PyVal) (cpar : Option Nat)
    (cflds : List (String × FieldDesc))
    (hc : ct[c]? = Option.some (ClassDef.standard cpar cflds))
    (h : BaseField.get_value_from_primitive ct fuel (FieldDesc.objectField c emb)
      prim = Except.ok r) :
    ∃ cattrs, r = PyVal.obj c cattrs := by
  cases fuel with
  | zero => cases h
  | succ f =>
    simp only [BaseField.get_value_from_primitive] at h
    have hnew : newInstance ct c = PyVal.obj c [] := by simp [newInstance, hc]
    rw [hnew] at h
    split at h
    · rename_i pair hpair
      cases h
      obtain ⟨entries, a2, _, _, hpeq⟩ :=
        from_primitive_std_shape ct f c [] prim pair cpar cflds hc hpair
      exact ⟨a2, by rw [hpeq]⟩
    · cases h

/-- Names declared only on the class of the unique embedded field end up on
the parent with the embedded child's attribute values, after the
conversion loop. -/
theorem fromPrimLoop_embed_copy (ct : List ClassDef) (fuel cls : Nat)
    (flds : List (String × FieldDesc)) (entries : List (String × PyVal))
    (attrs a2 : List (String × PyVal))
    (hsub : ∀ x ∈ flds.map Prod.fst, x ∈ (classFields ct cls).map Prod.fst)
    (hnd : (flds.map Prod.fst).Nodup)
    (eName : String) (ccls : Nat)
    (hmemE : (eName, FieldDesc.objectField ccls true) ∈ flds)
    (huniq : ∀ p ∈ flds, FieldDesc.isEmbedded p.2 = true →
      p = (eName, FieldDesc.objectField ccls true))
    (cpar : Option Nat) (cflds : List (String × FieldDesc))
    (hc : ct[ccls]? = Option.some (ClassDef.standard cpar cflds))
    (hcnd : (cflds.map Prod.fst).Nodup)
    (hrun : StandardObject.fromPrimLoop ct fuel cls flds entries attrs = Except.ok a2)
    (y : String) (yfd : FieldDesc) (hyc : (y, yfd) ∈ cflds)
    (hyp : y ∉ (classFields ct cls).map Prod.fst) :
    ∃ f2 cattrs, f2 ≤ fuel ∧
      BaseField.get_value_from_primitive ct f2 (FieldDesc.objectField ccls true)
        (PyVal.dict entries) = Except.ok (PyVal.obj ccls cattrs) ∧
      dictGet a2 y = dictGet cattrs y := by
  induction flds generalizing fuel attrs with
  | nil => cases hmemE
  | cons hd rest ih =>
    obtain ⟨fldName, fld⟩ := hd
    simp only [List.map_cons, List.nodup_cons] at hnd
    cases fuel with
    | zero => cases hrun
    | succ f =>
      obtain ⟨attr, attrs2, hfv, hrest, hbr⟩ :=
        fromPrimLoop_cons_inv ct f cls fldName fld rest entries attrs a2 hrun
      by_cases hE : fldName = eName ∧ fld = FieldDesc.objectField ccls true
      · obtain ⟨rfl, rfl⟩ := hE
        have hgv : BaseField.get_value_from_primitive ct f
            (FieldDesc.objectField ccls true) (PyVal.dict entries) =
            Except.ok attr := by
          simpa [StandardObject.fieldFromPrim, FieldDesc.isEmbedded] using hfv
        obtain ⟨cattrs, rfl⟩ :=
          get_value_objectField_shape ct f ccls true (PyVal.dict entries) attr
            cpar cflds hc hgv
        rcases hbr with ⟨hembF, _⟩ | ⟨_, hembed⟩
        · simp [FieldDesc.isEmbedded] at hembF
        · refine ⟨f, cattrs, Nat.le_succ f, hgv, ?_⟩
          have hnoe : ∀ p ∈ rest, FieldDesc.isEmbedded p.2 = false := by
            intro p hp
            by_contra hbad
            have hpe := huniq p (List.mem_cons_of_mem _ hp)
              (by revert hbad; cases FieldDesc.isEmbedded p.2 <;> simp)
            exact hnd.1 (by rw [hpe] at hp; exact List.mem_map.mpr ⟨_, hp, rfl⟩)
          have hyrest : y ∉ rest.map Prod.fst := fun hyr => hyp (hsub y (by simp [hyr]))
          rw [fromPrimLoop_frame_noembed ct f cls rest entries attrs2 a2 hnoe
            hrest y hyrest]
          exact embedObject_copy ct cls _ ccls cattrs attrs2 cpar cflds hc hcnd
            hembed y yfd hyc hyp
      · have hmemE2 : (eName, FieldDesc.objectField ccls true) ∈ rest := by
          rcases List.mem_cons.mp hmemE with h1 | h1
          · exact absurd (by simpa using h1.symm) hE
          · exact h1
        have hembF : FieldDesc.isEmbedded fld = false := by
          by_contra hbad
          have := huniq (fldName, fld) (List.mem_cons_self .. )
            (by revert hbad; cases FieldDesc.isEmbedded fld <;> simp)
          exact hE (by simpa using this)
        rcases hbr with ⟨_, rfl⟩ | ⟨hembT, _⟩
        · obtain ⟨f2, cattrs, hf2, hgv2, hget⟩ := ih f _
            (fun x hx => hsub x (by simp [hx])) hnd.2 hmemE2
            (fun p hp h2 => huniq p (List.mem_cons_of_mem _ hp) h2) hrest
          exact ⟨f2, cattrs, Nat.le_succ_of_le hf2, hgv2, hget⟩
        · rw [hembT] at hembF
          cases hembF

/-- C8: for every standard class, `default()` sets an instance attribute
for every declared field name, holding the value that field's own
descriptor computes, and returns the (mutated) instance itself; likewise
after a successful `from_primitive` every declared field name resolves on
the instance (and the receiver is returned).  The budget bound `f2 < fuel`
reflects that each descriptor runs within the call's recursion budget. -/
theorem C8_default_sets_all_fields :
    (∀ (ct : List ClassDef) (fuel cls : Nat) (par : Option Nat)
      (flds : List (String × FieldDesc)) (attrs : List (String × PyVal))
      (res : PyVal),
      ct[cls]? = Option.some (ClassDef.standard par flds) →
      (flds.map Prod.fst).Nodup →
      BaseObject.default ct fuel (PyVal.obj cls attrs) = Except.ok res →
      ∃ a2, res = PyVal.obj cls a2 ∧
        ∀ nf ∈ flds, ∃ f2 v, f2 < fuel ∧
          BaseField.get_default_value ct f2 nf.2 = Except.ok v ∧
          dictGet a2 nf.1 = Option.some v) ∧
    (∀ (ct : List ClassDef) (fuel cls : Nat) (par : Option Nat)
      (flds : List (String × FieldDesc)) (attrs : List (String × PyVal))
      (prim : PyVal) (pair : PyVal × PyVal),
      ct[cls]? = Option.some (ClassDef.standard par flds) →
      (flds.map Prod.fst).Nodup →
      BaseObject.from_primitive ct fuel (PyVal.obj cls attrs) prim =
        Except.ok pair →
      ∃ a2, pair = (PyVal.obj cls a2, PyVal.obj cls a2) ∧
        ∀ nf ∈ flds, (dictGet a2 nf.1).isSome = true) := by
  constructor
  · intro ct fuel cls par flds attrs res hcd hnd hrun
    cases fuel with
    | zero => cases hrun
    | succ f =>
      obtain ⟨a2, hres, hloop⟩ :=
        default_std_shape ct (f+1) cls attrs res par flds hcd hrun
      refine ⟨a2, hres, ?_⟩
      intro nf hmem
      obtain ⟨n, fd⟩ := nf
      obtain ⟨f2, v, hf2, hgd, hget⟩ := defaultLoop_value ct f cls flds attrs a2
        (fun x hx => by simpa [classFields, hcd] using hx) hnd hloop n fd hmem
      exact ⟨f2, v, Nat.lt_succ_of_le hf2, hgd, hget⟩
  · intro ct fuel cls par flds attrs prim pair hcd hnd hrun
    cases fuel with
    | zero => cases hrun
    | succ f =>
      obtain ⟨entries, a2, hprim, hloop, hpair⟩ :=
        from_primitive_std_shape ct (f+1) cls attrs prim pair par flds hcd hrun
      refine ⟨a2, hpair, ?_⟩
      intro nf hmem
      obtain ⟨n, fd⟩ := nf
      obtain ⟨f2, v, hf2, hfv, hget⟩ := fromPrimLoop_value ct f cls flds entries
        attrs a2 (fun x hx => by simpa [classFields, hcd] using hx) hnd hloop n fd hmem
      simp [hget]

/-- Witness for C8_default_sets_all_fields: defaulting an instance of the
standard class 0 sets its declared field `v` to that field's default. -/
theorem C8_default_sets_all_fields_witness :
    (∃ a2, (PyVal.obj 0 [("v", PyVal.none)] : PyVal) = PyVal.obj 0 a2 ∧
      ∀ nf ∈ [("v", FieldDesc.primitiveField PyVal.none)], ∃ f2 v, f2 < 10 ∧
        BaseField.get_default_value exCT f2 nf.2 = Except.ok v ∧
        dictGet a2 nf.1 = Option.some v) ∧
    (([("v", FieldDesc.primitiveField PyVal.none)].map Prod.fst).Nodup) :=
  ⟨C8_default_sets_all_fields.1 exCT 10 0 Option.none
      [("v", FieldDesc.primitiveField PyVal.none)] [] (PyVal.obj 0 [("v", PyVal.none)])
      rfl (by simp) rfl,
   by simp⟩

/-- Class table for the embedding witnesses: class 0 is the child type C
with primitive fields `x` (default 10) and `y` (default 20); class 1 is
the parent type P declaring its own primitive field `x` (default 1) and an
embedded `ObjectField` named `c` referencing C. -/
def exEmbedCT : List ClassDef :=
  [ClassDef.standard Option.none
     [("x", FieldDesc.primitiveField (PyVal.int 10)),
      ("y", FieldDesc.primitiveField (PyVal.int 20))],
   ClassDef.standard Option.none
     [("x", FieldDesc.primitiveField (PyVal.int 1)),
      ("c", FieldDesc.objectField 0 true)]]

example :
    BaseObject.default exEmbedCT 10 (PyVal.obj 1 []) =
    Except.ok (PyVal.obj 1
      [("x", PyVal.int 1),
       ("c", PyVal.obj 0 [("x", PyVal.int 10), ("y", PyVal.int 20)]),
       ("y", PyVal.int 20)]) := rfl

example :
    BaseObject.from_primitive exEmbedCT 10 (PyVal.obj 1 [])
      (PyVal.dict [("x", PyVal.int 5)]) =
    Except.ok
      (PyVal.obj 1
         [("x", PyVal.int 5),
          ("c", PyVal.obj 0 [("x", PyVal.int 5), ("y", PyVal.int 20)]),
          ("y", PyVal.int 20)],
       PyVal.obj 1
         [("x", PyVal.int 5),
          ("c", PyVal.obj 0 [("x", PyVal.int 5), ("y", PyVal.int 20)]),
          ("y", PyVal.int 20)]) := rfl

/-- C5: embedding precedence.  For a parent standard class P whose unique
embedded `ObjectField` references a standard child class C, after
`default()` (first part) or `from_primitive` (second part) on P: every
field name declared on P — in particular any name declared on both P and C
— holds the value computed by P's own field descriptor (the child's value
never overwrites it), while every name declared only on C (not declared on
P) is exposed on the parent with the embedded child's attribute value. -/
theorem C5_embedding_precedence :
    (∀ (ct : List ClassDef) (fuel cls : Nat) (par : Option Nat)
      (flds : List (String × FieldDesc)) (attrs : List (String × PyVal))
      (res : PyVal) (eName : String) (ccls : Nat) (cpar : Option Nat)
      (cflds : List (String × FieldDesc)),
      ct[cls]? = Option.some (ClassDef.standard par flds) →
      (flds.map Prod.fst).Nodup →
      (eName, FieldDesc.objectField ccls true) ∈ flds →
      (∀ p ∈ flds, FieldDesc.isEmbedded p.2 = true →
        p = (eName, FieldDesc.objectField ccls true)) →
      ct[ccls]? = Option.some (ClassDef.standard cpar cflds) →
      (cflds.map Prod.fst).Nodup →
      BaseObject.default ct fuel (PyVal.obj cls attrs) = Except.ok res →
      ∃ a2, res = PyVal.obj cls a2 ∧
        (∀ nf ∈ flds, ∃ f2 v, f2 < fuel ∧
          BaseField.get_default_value ct f2 nf.2 = Except.ok v ∧
          dictGet a2 nf.1 = Option.some v) ∧
        (∀ yf ∈ cflds, yf.1 ∉ flds.map Prod.fst →
          ∃ f2 cattrs, f2 < fuel ∧
            BaseField.get_default_value ct f2 (FieldDesc.objectField ccls true) =
              Except.ok (PyVal.obj ccls cattrs) ∧
            dictGet a2 yf.1 = dictGet cattrs yf.1)) ∧
    (∀ (ct : List ClassDef) (fuel cls : Nat) (par : Option Nat)
      (flds : List (String × FieldDesc)) (attrs : List (String × PyVal))
      (prim : PyVal) (pair : PyVal × PyVal) (eName : String) (ccls : Nat)
      (cpar : Option Nat) (cflds : List (String × FieldDesc)),
      ct[cls]? = Option.some (ClassDef.standard par flds) →
      (flds.map Prod.fst).Nodup →
      (eName, FieldDesc.objectField ccls true) ∈ flds →
      (∀ p ∈ flds, FieldDesc.isEmbedded p.2 = true →
        p = (eName, FieldDesc.objectField ccls true)) →
      ct[ccls]? = Option.some (ClassDef.standard cpar cflds) →
      (cflds.map Prod.fst).Nodup →
      BaseObject.from_primitive ct fuel (PyVal.obj cls attrs) prim =
        Except.ok pair →
      ∃ entries a2, prim = PyVal.dict entries ∧
        pair = (PyVal.obj cls a2, PyVal.obj cls a2) ∧
        (∀ nf ∈ flds, ∃ f2 v, f2 < fuel ∧
          StandardObject.fieldFromPrim ct f2 nf.1 nf.2 entries = Except.ok v ∧
          dictGet a2 nf.1 = Option.some v) ∧
        (∀ yf ∈ cflds, yf.1 ∉ flds.map Prod.fst →
          ∃ f2 cattrs, f2 < fuel ∧
            BaseField.get_value_from_primitive ct f2
              (FieldDesc.objectField ccls true) (PyVal.dict entries) =
              Except.ok (PyVal.obj ccls cattrs) ∧
            dictGet a2 yf.1 = dictGet cattrs yf.1)) := by
  constructor
  · intro ct fuel cls par flds attrs res eName ccls cpar cflds hcd hnd hmemE huniq
      hc hcnd hrun
    cases fuel with
    | zero => cases hrun
    | succ f =>
      obtain ⟨a2, hres, hloop⟩ :=
        default_std_shape ct (f+1) cls attrs res par flds hcd hrun
      have hsub : ∀ x ∈ flds.map Prod.fst, x ∈ (classFields ct cls).map Prod.fst :=
        fun x hx => by simpa [classFields, hcd] using hx
      refine ⟨a2, hres, ?_, ?_⟩
      · intro nf hmem
        obtain ⟨n, fd⟩ := nf
        obtain ⟨f2, v, hf2, hgd, hget⟩ :=
          defaultLoop_value ct f cls flds attrs a2 hsub hnd hloop n fd hmem
        exact ⟨f2, v, Nat.lt_succ_of_le hf2, hgd, hget⟩
      · intro yf hyc hyp
        obtain ⟨y, yfd⟩ := yf
        obtain ⟨f2, cattrs, hf2, hgd, hget⟩ :=
          defaultLoop_embed_copy ct f cls flds attrs a2 hsub hnd eName ccls hmemE
            huniq cpar cflds hc hcnd hloop y yfd hyc
            (by simpa [classFields, hcd] using hyp)
        exact ⟨f2, cattrs, Nat.lt_succ_of_le hf2, hgd, hget⟩
  · intro ct fuel cls par flds attrs prim pair eName ccls cpar cflds hcd hnd hmemE
      huniq hc hcnd hrun
    cases fuel with
    | zero => cases hrun
    | succ f =>
      obtain ⟨entries, a2, hprim, hloop, hpair⟩ :=
        from_primitive_std_shape ct (f+1) cls attrs prim pair par flds hcd hrun
      have hsub : ∀ x ∈ flds.map Prod.fst, x ∈ (classFields ct cls).map Prod.fst :=
        fun x hx => by simpa [classFields, hcd] using hx
      refine ⟨entries, a2, hprim, hpair, ?_, ?_⟩
      · intro nf hmem
        obtain ⟨n, fd⟩ := nf
        obtain ⟨f2, v, hf2, hfv, hget⟩ :=
          fromPrimLoop_value ct f cls flds entries attrs a2 hsub hnd hloop n fd hmem
        exact ⟨f2, v, Nat.lt_succ_of_le hf2, hfv, hget⟩
      · intro yf hyc hyp
        obtain ⟨y, yfd⟩ := yf
        obtain ⟨f2, cattrs, hf2, hgv, hget⟩ :=
          fromPrimLoop_embed_copy ct f cls flds entries attrs a2 hsub hnd eName
            ccls hmemE huniq cpar cflds hc hcnd hloop y yfd hyc
            (by simpa [classFields, hcd] using hyp)
        exact ⟨f2, cattrs, Nat.lt_succ_of_le hf2, hgv, hget⟩

/-- Witness for C5_embedding_precedence: in exEmbedCT, defaulting the
parent keeps the parent's `x = 1` (not the child's 10) and exposes the
child's `y = 20` on the parent. -/
theorem C5_embedding_precedence_witness :
    ∃ a2, (PyVal.obj 1
        [("x", PyVal.int 1),
         ("c", PyVal.obj 0 [("x", PyVal.int 10), ("y", PyVal.int 20)]),
         ("y", PyVal.int 20)] : PyVal) = PyVal.obj 1 a2 ∧
      (∀ nf ∈ [("x", FieldDesc.primitiveField (PyVal.int 1)),
               ("c", FieldDesc.objectField 0 true)], ∃ f2 v, f2 < 10 ∧
        BaseField.get_default_value exEmbedCT f2 nf.2 = Except.ok v ∧
        dictGet a2 nf.1 = Option.some v) ∧
      (∀ yf ∈ [("x", FieldDesc.primitiveField (PyVal.int 10)),
               ("y", FieldDesc.primitiveField (PyVal.int 20))],
        yf.1 ∉ ([("x", FieldDesc.primitiveField (PyVal.int 1)),
                 ("c", FieldDesc.objectField 0 true)].map Prod.fst) →
        ∃ f2 cattrs, f2 < 10 ∧
          BaseField.get_default_value exEmbedCT f2 (FieldDesc.objectField 0 true) =
            Except.ok (PyVal.obj 0 cattrs) ∧
          dictGet a2 yf.1 = dictGet cattrs yf.1) :=
  C5_embedding_precedence.1 exEmbedCT 10 1 Option.none
    [("x", FieldDesc.primitiveField (PyVal.int 1)),
     ("c", FieldDesc.objectField 0 true)] []
    (PyVal.obj 1
      [("x", PyVal.int 1),
       ("c", PyVal.obj 0 [("x", PyVal.int 10), ("y", PyVal.int 20)]),
       ("y", PyVal.int 20)])
    "c" 0 Option.none
    [("x", FieldDesc.primitiveField (PyVal.int 10)),
     ("y", FieldDesc.primitiveField (PyVal.int 20))]
    rfl (by simp) (by simp)
    (by
      intro p hp hemb
      simp at hp
      rcases hp with rfl | rfl
      · simp [FieldDesc.isEmbedded] at hemb
      · rfl)
    rfl (by simp) rfl

end MLBox
